import Mathlib

/-!
Verification development for the pdfquery core (compiler, query engine).

The definitions below are a shallow embedding of src/compiler.ts and
src/query.ts. JavaScript numbers are modelled by exact rationals, strings
by Lean strings (character lists for the scanning code), and JavaScript
runtime values that flow through the attribute system by the inductive
type JsValue. Array.prototype.sort with a comparator is modelled by a
stable insertion sort: since ES2019 the builtin sort is required to be
stable, and for a consistent comparator every stable sort produces the
same output.
-/

set_option maxRecDepth 4000

set_option allowUnsafeReducibility true
attribute [local semireducible] Rat.add Rat.sub Rat.mul Rat.div Rat.neg Rat.inv

/-! ## JavaScript string primitives -/

/-- Whitespace as matched by the regex class backslash-s (ASCII part). -/
def jsIsSpace (c : Char) : Bool :=
  c == ' ' || c == '\t' || c == '\n' || c == '\r' || c == '\x0b' || c == '\x0c'

/-- Model of String.prototype.trim on character lists. -/
def jsTrimList (l : List Char) : List Char :=
  ((l.dropWhile jsIsSpace).reverse.dropWhile jsIsSpace).reverse

/-- Model of String.prototype.trim. -/
def jsTrim (s : String) : String := ⟨jsTrimList s.data⟩

/-- Model of String.prototype.toLowerCase (ASCII letters). -/
def jsLowerList (l : List Char) : List Char := l.map Char.toLower

/-- Prefix test on character lists (String.prototype.startsWith). -/
def listStartsWith : List Char → List Char → Bool
  | _, [] => true
  | [], _ :: _ => false
  | a :: as, b :: bs => a == b && listStartsWith as bs

/-- Substring test on character lists (String.prototype.includes). -/
def listIncludes : List Char → List Char → Bool
  | [], pat => pat.isEmpty
  | l@(_ :: rest), pat => listStartsWith l pat || listIncludes rest pat

/-- Model of String.prototype.split with a one-character separator. -/
def splitOnChar (sep : Char) : List Char → List (List Char)
  | [] => [[]]
  | c :: rest =>
    let r := splitOnChar sep rest
    if c == sep then [] :: r
    else
      match r with
      | [] => [[c]]
      | h :: t => (c :: h) :: t

/-- Element filter keeping indices strictly between 0 and length - 1
(the filter `idx > 0 && idx < arr.length - 1` used on split table rows). -/
def dropFirstLast (l : List α) : List α := (l.drop 1).dropLast

/-! ## Regex models for the compiler patterns

Each pattern of src/compiler.ts is an anchored regex over disjoint
character classes, so greedy scanning is equivalent to the regex. -/

/-- Digit or comma, the class inside CURRENCY_PATTERN and NUMBER_PATTERN. -/
def isDigitComma (c : Char) : Bool := c.isDigit || c == ','

/-- CURRENCY_PATTERN from src/compiler.ts line 2. -/
def currencyTest (l : List Char) : Bool :=
  let l1 := match l with
    | c :: rest => if c == '$' || c == '£' || c == '€' || c == '¥' then rest else l
    | [] => l
  let l2 := l1.dropWhile jsIsSpace
  let l3 := match l2 with
    | c :: rest => if c == '-' then rest else l2
    | [] => l2
  let grouped := l3.takeWhile isDigitComma
  let l4 := l3.dropWhile isDigitComma
  if grouped.isEmpty then false
  else
    let l5 := match l4 with
      | c :: rest => if c == '.' then rest else l4
      | [] => l4
    let l6 := l5.dropWhile Char.isDigit
    let l7 := l6.dropWhile jsIsSpace
    let l8 := match l7 with
      | c :: rest => if c == '万' || c == '亿' || c == '千' then rest else l7
      | [] => l7
    l8.isEmpty

/-- PERCENTAGE_PATTERN from src/compiler.ts line 3. -/
def percentageTest (l : List Char) : Bool :=
  let l1 := match l with
    | c :: rest => if c == '-' then rest else l
    | [] => l
  let d := l1.takeWhile Char.isDigit
  let l2 := l1.dropWhile Char.isDigit
  if d.isEmpty then false
  else
    let l3 := match l2 with
      | c :: rest => if c == '.' then rest else l2
      | [] => l2
    let l4 := l3.dropWhile Char.isDigit
    let l5 := l4.dropWhile jsIsSpace
    l5 == ['%']

/-- Date separator characters of DATE_PATTERN. -/
def isDateSep (c : Char) : Bool := c == '-' || c == '/'

/-- DATE_PATTERN from src/compiler.ts line 4: two alternatives
yyyy sep m sep d, or m sep d sep yy(yy), separators dash or slash. -/
def dateTest (l : List Char) : Bool :=
  let d1 := l.takeWhile Char.isDigit
  let r1 := l.dropWhile Char.isDigit
  match r1 with
  | s1 :: r2 =>
    if isDateSep s1 then
      let d2 := r2.takeWhile Char.isDigit
      let r3 := r2.dropWhile Char.isDigit
      match r3 with
      | s2 :: r4 =>
        if isDateSep s2 then
          let d3 := r4.takeWhile Char.isDigit
          let r5 := r4.dropWhile Char.isDigit
          r5.isEmpty &&
            ((d1.length == 4 && 1 ≤ d2.length && d2.length ≤ 2
                && 1 ≤ d3.length && d3.length ≤ 2)
             || (1 ≤ d1.length && d1.length ≤ 2 && 1 ≤ d2.length && d2.length ≤ 2
                && 2 ≤ d3.length && d3.length ≤ 4))
        else false
      | [] => false
    else false
  | [] => false

/-- NUMBER_PATTERN from src/compiler.ts line 5. -/
def numberTest (l : List Char) : Bool :=
  let l1 := match l with
    | c :: rest => if c == '-' then rest else l
    | [] => l
  let grouped := l1.takeWhile isDigitComma
  let l2 := l1.dropWhile isDigitComma
  if grouped.isEmpty then false
  else
    let l3 := match l2 with
      | c :: rest => if c == '.' then rest else l2
      | [] => l2
    (l3.dropWhile Char.isDigit).isEmpty

/-! ## detectEntityType (src/compiler.ts lines 6-20) -/

/-- Pattern cascade of detectEntityType after the label hint. -/
def detectEntityTypeCore (trimmed : List Char) : String :=
  if currencyTest trimmed then "currency"
  else if percentageTest trimmed then "percentage"
  else if dateTest trimmed then "date"
  else if numberTest trimmed then "number"
  else if trimmed.length < 50 && !(trimmed.contains '\n') then "label"
  else "text"

/-- detectEntityType from src/compiler.ts. A label argument that is the
empty string is falsy in JavaScript, so it is skipped like a missing one. -/
def detectEntityType (text : String) (label : Option String) : String :=
  let trimmed := jsTrimList text.data
  match label with
  | some lab =>
    if lab == "" then detectEntityTypeCore trimmed
    else
      let lower := jsLowerList lab.data
      if listIncludes lower "total".data then "total"
      else if listIncludes lower "subtotal".data then "subtotal"
      else if listIncludes lower "date".data then "date"
      else detectEntityTypeCore trimmed
  | none => detectEntityTypeCore trimmed

/-! ## parseMarkdownTable (src/compiler.ts lines 21-40) -/

structure MdRow where
  cells : List String
  isHeader : Bool
deriving DecidableEq, Repr

structure ParsedTable where
  rows : List MdRow
  columnCount : Nat
deriving DecidableEq, Repr

/-- Test for the separator-row regex of src/compiler.ts line 26; the
regex is anchored at the start only, so it is a prefix test. -/
def sepRowTest (l : List Char) : Bool :=
  let l1 := match l with
    | c :: rest => if c == '|' then rest else l
    | [] => l
  let l2 := l1.dropWhile jsIsSpace
  let marks := l2.takeWhile (fun c => c == '-' || c == ':')
  let l3 := l2.dropWhile (fun c => c == '-' || c == ':')
  if marks.isEmpty then false
  else
    match l3.dropWhile jsIsSpace with
    | '|' :: _ => true
    | _ => false

/-- Row-collecting loop of parseMarkdownTable; acc holds the rows pushed
so far (a pushed row is a header exactly when acc was still empty). -/
def parseRowsGo : List (List Char) → List MdRow → List MdRow
  | [], acc => acc
  | line :: rest, acc =>
    let t := jsTrimList line
    if sepRowTest t then parseRowsGo rest acc
    else if listStartsWith t ['|'] || listIncludes t ['|'] then
      let cells := dropFirstLast ((splitOnChar '|' t).map (fun c => String.mk (jsTrimList c)))
      if cells.isEmpty then parseRowsGo rest acc
      else parseRowsGo rest (acc ++ [⟨cells, acc.isEmpty⟩])
    else parseRowsGo rest acc

/-- parseMarkdownTable from src/compiler.ts. -/
def parseMarkdownTable (markdown : String) : ParsedTable :=
  let lines := (splitOnChar '\n' markdown.data).filter
    (fun line => !(jsTrimList line).isEmpty)
  let rows := parseRowsGo lines []
  { rows := rows
    columnCount := rows.foldl (fun m r => max m r.cells.length) 0 }

/-! ## JavaScript runtime values -/

/-- JavaScript values flowing through the attribute system. NaN is not
representable: the only number producers in scope yield real numbers or
undefined. An objRef stands for an object reference (only the bbox and
meta sub-objects are ever reachable through attribute reads). -/
inductive JsValue where
  | undefined
  | null
  | bool (b : Bool)
  | num (q : ℚ)
  | str (s : String)
  | objRef (tag : String)
deriving DecidableEq, Repr

/-- Strict equality (===). Two object references obtained at different
places are never identical, so object comparisons are modelled as false;
primitives compare structurally. -/
def jsStrictEq (a b : JsValue) : Bool :=
  match a, b with
  | .objRef _, .objRef _ => false
  | x, y => decide (x = y)

/-- Nullish coalescing (??). -/
def jsNullish (v : JsValue) (d : JsValue) : JsValue :=
  match v with
  | .undefined => d
  | .null => d
  | x => x

/-- The JavaScript `x || d` idiom on an optional string field: null,
undefined and the empty string all fall back to the default. -/
def jsOrString (v : Option String) (d : String) : String :=
  match v with
  | some s => if s == "" then d else s
  | none => d

/-! ## Numeric parsing (parseValue, src/compiler.ts lines 456-468) -/

/-- Value of a digit list read in base 10. -/
def digitsVal (l : List Char) : ℚ :=
  l.foldl (fun a c => a * 10 + ((c.toNat - '0'.toNat : ℕ) : ℚ)) 0

/-- Exponent part after e or E; an invalid exponent is ignored (0). -/
def jsExponentVal (r : List Char) : ℤ :=
  let esgn : ℤ := match r with
    | '-' :: _ => -1
    | _ => 1
  let r1 := match r with
    | '-' :: t => t
    | '+' :: t => t
    | _ => r
  let ed := r1.takeWhile Char.isDigit
  if ed.isEmpty then 0
  else esgn * ((digitsVal ed).num)

/-- Model of parseFloat: skip leading whitespace, optional sign, integer
digits, optional fraction, optional exponent; none models NaN. The
source feeds it strings already stripped to digits, dots and minus
signs, so the exponent branch is never reached there. Unlike the
double-precision original the result is an exact rational. -/
def jsParseFloat (l0 : List Char) : Option ℚ :=
  let l := l0.dropWhile jsIsSpace
  let sgn : ℚ := match l with
    | '-' :: _ => -1
    | _ => 1
  let l1 := match l with
    | '-' :: r => r
    | '+' :: r => r
    | _ => l
  let ip := l1.takeWhile Char.isDigit
  let l2 := l1.dropWhile Char.isDigit
  let fp := match l2 with
    | '.' :: r => r.takeWhile Char.isDigit
    | _ => []
  let l3 := match l2 with
    | '.' :: r => r.dropWhile Char.isDigit
    | _ => l2
  if ip.isEmpty && fp.isEmpty then none
  else
    let mantissa : ℚ := digitsVal ip + digitsVal fp / 10 ^ fp.length
    let ex : ℤ := match l3 with
      | 'e' :: r => jsExponentVal r
      | 'E' :: r => jsExponentVal r
      | _ => 0
    some (sgn * mantissa * 10 ^ ex)

/-- The non-numeric strip `text.replace(/[^\d.-]/g, "")`. -/
def cleanNumericChars (s : String) : List Char :=
  s.data.filter (fun c => c.isDigit || c == '.' || c == '-')

/-- DocCompiler.parseValue from src/compiler.ts. -/
def parseValueC (text : String) (ty : String) : JsValue :=
  if ty == "currency" || ty == "number" then
    match jsParseFloat (cleanNumericChars text) with
    | some q => .num q
    | none => .undefined
  else if ty == "percentage" then
    match jsParseFloat (cleanNumericChars text) with
    | some q => .num (q / 100)
    | none => .undefined
  else .undefined

/-! ## Compiler data model (src/compiler.ts, src/types.ts) -/

structure BBox where
  xmin : ℚ
  ymin : ℚ
  xmax : ℚ
  ymax : ℚ
deriving DecidableEq, Repr

structure VirtualEntity where
  id : String
  type : JsValue
  text : JsValue
  value : JsValue
  bbox : BBox
  meta : List (String × JsValue)
  pageIndex : Int
  tableId : Option String
  rowIndex : Option Int
  colIndex : Option Int
deriving DecidableEq, Repr

structure SourceBox where
  x : ℚ
  y : ℚ
  width : ℚ
  height : ℚ
deriving DecidableEq, Repr

/-- SourceTable; verified_at is the already-parsed epoch of the date
string (the new Date conversion itself is outside the model). -/
structure SourceTable where
  id : String
  page_number : Int
  markdown : String
  bbox : BBox
  confidence : Option ℚ
  verification_status : Option String
  verified_by : Option String
  verified_at : Option Int
  was_corrected : Option Bool
deriving DecidableEq, Repr

structure SourceEntity where
  id : String
  page_number : Int
  field_label : Option String
  suggested_value : String
  verified_value : Option String
  suggested_value_numeric : Option ℚ
  bounding_box : SourceBox
  confidence : ℚ
  verification_status : Option String
  verified_at : Option Int
  was_corrected : Bool
  flag_reason : Option String
  flagged_at : Option Int
  row_index : Option Int
deriving DecidableEq, Repr

structure SourceExtractedEntity where
  id : String
  type : String
  title : String
  page : Int
  bbox : SourceBox
  caption : Option String
  confidence : Option ℚ
  verification_status : Option String
deriving DecidableEq, Repr

structure SourceOcr where
  id : String
  page : Int
  text : String
  bbox : SourceBox
  confidence : ℚ
  verification_status : Option String
deriving DecidableEq, Repr

structure SourceMarkdown where
  id : String
  page : Int
  content : String
  model : Option String
  confidence : Option ℚ
  verification_status : Option String
deriving DecidableEq, Repr

/-- Compiler options with the constructor defaults already applied
(the documentId default is a timestamp string built at construction). -/
structure CompilerOptions where
  includeTables : Bool
  parseTableCells : Bool
  autoDetectTypes : Bool
  documentId : String
  fileName : String
  documentType : String
deriving DecidableEq, Repr

def defaultCompilerOptions (docId : String) : CompilerOptions :=
  { includeTables := true
    parseTableCells := true
    autoDetectTypes := true
    documentId := docId
    fileName := "unknown"
    documentType := "document" }

def optNum : Option ℚ → JsValue
  | some q => .num q
  | none => .undefined

def optStr : Option String → JsValue
  | some s => .str s
  | none => .undefined

def optInt : Option Int → JsValue
  | some i => .num (i : ℚ)
  | none => .undefined

def optBool : Option Bool → JsValue
  | some b => .bool b
  | none => .undefined

/-- Argument object for DocCompiler.buildMeta; absent properties are
undefined. -/
structure MetaArgs where
  verified : JsValue := .undefined
  verificationStatus : JsValue := .undefined
  verifiedBy : JsValue := .undefined
  verifiedAt : JsValue := .undefined
  confidence : JsValue := .undefined
  wasCorrected : JsValue := .undefined
  correctionType : JsValue := .undefined
  source : JsValue := .undefined
  processorType : JsValue := .undefined
  flagReason : JsValue := .undefined
  flaggedBy : JsValue := .undefined
  flaggedAt : JsValue := .undefined
deriving DecidableEq, Repr

/-- DocCompiler.buildMeta: the meta object always carries the same
twelve keys, some of them with an undefined value. -/
def buildMeta (p : MetaArgs) : List (String × JsValue) :=
  [("verified", jsNullish p.verified (.bool false)),
   ("verificationStatus", jsNullish p.verificationStatus (.str "pending")),
   ("verifiedBy", p.verifiedBy),
   ("verifiedAt", p.verifiedAt),
   ("confidence", jsNullish p.confidence (.num 0)),
   ("wasCorrected", jsNullish p.wasCorrected (.bool false)),
   ("correctionType", p.correctionType),
   ("source", jsNullish p.source (.str "system")),
   ("processorType", p.processorType),
   ("flagReason", p.flagReason),
   ("flaggedBy", p.flaggedBy),
   ("flaggedAt", p.flaggedAt)]

/-- Key lookup in a meta object; a key stored with an undefined value is
still present (matching the JavaScript in operator). -/
def metaLookup (m : List (String × JsValue)) (k : String) : Option JsValue :=
  (m.find? (fun kv => kv.1 == k)).map (fun kv => kv.2)

/-! ## Entity conversion (src/compiler.ts lines 251-436) -/

def DocCompiler.tableToEntity (t : SourceTable) (pageIndex : Int) : VirtualEntity :=
  let status := jsOrString t.verification_status "pending"
  { id := t.id
    type := .str "table"
    text := .str t.markdown
    value := .undefined
    bbox := t.bbox
    meta := buildMeta
      { confidence := jsNullish (optNum t.confidence) (.num 0)
        verificationStatus := .str status
        verified := .bool (status == "verified")
        verifiedBy := optStr t.verified_by
        verifiedAt := optInt t.verified_at
        wasCorrected := jsNullish (optBool t.was_corrected) (.bool false)
        source := .str "ocr" }
    pageIndex := pageIndex
    tableId := none
    rowIndex := none
    colIndex := none }

def DocCompiler.parseTableCells (opts : CompilerOptions) (t : SourceTable)
    (pageIndex : Int) : List VirtualEntity :=
  let parsed := parseMarkdownTable t.markdown
  if parsed.rows.length == 0 then []
  else
    let tableWidth := t.bbox.xmax - t.bbox.xmin
    let tableHeight := t.bbox.ymax - t.bbox.ymin
    let rowHeight := tableHeight / (parsed.rows.length : ℚ)
    let colWidth := if parsed.columnCount > 0
      then tableWidth / (parsed.columnCount : ℚ) else tableWidth
    parsed.rows.enum.flatMap (fun rc =>
      let rowIdx := rc.1
      let row := rc.2
      row.cells.enum.filterMap (fun cc =>
        let colIdx : ℕ := cc.1
        let cellText : String := cc.2
        if (jsTrimList cellText.data).isEmpty then none
        else
          let cellBbox : BBox :=
            { xmin := t.bbox.xmin + (colIdx : ℚ) * colWidth
              ymin := t.bbox.ymin + (rowIdx : ℚ) * rowHeight
              xmax := t.bbox.xmin + ((colIdx : ℚ) + 1) * colWidth
              ymax := t.bbox.ymin + ((rowIdx : ℚ) + 1) * rowHeight }
          let entityType := if row.isHeader then "header"
            else if opts.autoDetectTypes then detectEntityType cellText none
            else "table_cell"
          some
            { id := t.id ++ "_r" ++ toString rowIdx ++ "_c" ++ toString colIdx
              type := .str entityType
              text := .str cellText
              value := parseValueC cellText entityType
              bbox := cellBbox
              meta := buildMeta
                { confidence := jsNullish (optNum t.confidence) (.num 0)
                  verificationStatus := .str (jsOrString t.verification_status "pending")
                  verified := .bool (t.verification_status == some "verified")
                  wasCorrected := .bool false
                  source := .str "ocr" }
              pageIndex := pageIndex
              tableId := some t.id
              rowIndex := some (Int.ofNat rowIdx)
              colIndex := some (Int.ofNat colIdx) }))

def DocCompiler.sourceEntityToVirtual (opts : CompilerOptions) (e : SourceEntity)
    (pageIndex : Int) : VirtualEntity :=
  let status := jsOrString e.verification_status "pending"
  let entityType := if opts.autoDetectTypes
    then detectEntityType e.suggested_value e.field_label else "text"
  { id := e.id
    type := .str entityType
    text := .str (jsOrString e.verified_value e.suggested_value)
    value := optNum e.suggested_value_numeric
    bbox :=
      { xmin := e.bounding_box.x
        ymin := e.bounding_box.y
        xmax := e.bounding_box.x + e.bounding_box.width
        ymax := e.bounding_box.y + e.bounding_box.height }
    meta := buildMeta
      { confidence := .num e.confidence
        verificationStatus := .str status
        verified := .bool (status == "verified")
        verifiedAt := optInt e.verified_at
        wasCorrected := .bool e.was_corrected
        flagReason := optStr e.flag_reason
        flaggedAt := optInt e.flagged_at
        source := .str "ocr" }
    pageIndex := pageIndex
    tableId := none
    rowIndex := e.row_index
    colIndex := none }

/-- The fixed type remap for unified extracted entities. -/
def extractedTypeMap (ty : String) : Option String :=
  if ty == "table" then some "table"
  else if ty == "figure" then some "figure"
  else if ty == "footnote" then some "footnote"
  else if ty == "summary" then some "text"
  else if ty == "signature" then some "text"
  else none

def DocCompiler.extractedEntityToVirtual (e : SourceExtractedEntity)
    (pageIndex : Int) : VirtualEntity :=
  let status := jsOrString e.verification_status "pending"
  let entityType := match extractedTypeMap e.type with
    | some m => m
    | none => if e.type == "" then "unknown" else e.type
  let text := match e.caption with
    | some c => if c == "" then e.title else e.title ++ "\n" ++ c
    | none => e.title
  { id := e.id
    type := .str entityType
    text := .str text
    value := .undefined
    bbox :=
      { xmin := e.bbox.x
        ymin := e.bbox.y
        xmax := e.bbox.x + e.bbox.width
        ymax := e.bbox.y + e.bbox.height }
    meta := buildMeta
      { confidence := jsNullish (optNum e.confidence) (.num 1)
        verificationStatus := .str status
        verified := .bool (status == "verified")
        source := .str "ocr" }
    pageIndex := pageIndex
    tableId := none
    rowIndex := none
    colIndex := none }

def DocCompiler.ocrBlockToVirtual (o : SourceOcr) (pageIndex : Int) : VirtualEntity :=
  let status := jsOrString o.verification_status "pending"
  { id := o.id
    type := .str "ocr"
    text := .str o.text
    value := .undefined
    bbox :=
      { xmin := o.bbox.x
        ymin := o.bbox.y
        xmax := o.bbox.x + o.bbox.width
        ymax := o.bbox.y + o.bbox.height }
    meta := buildMeta
      { confidence := .num o.confidence
        verificationStatus := .str status
        verified := .bool (status == "verified")
        source := .str "ocr" }
    pageIndex := pageIndex
    tableId := none
    rowIndex := none
    colIndex := none }

def DocCompiler.markdownBlockToVirtual (md : SourceMarkdown) (pageIndex : Int) : VirtualEntity :=
  let status := jsOrString md.verification_status "pending"
  { id := md.id
    type := .str "markdown"
    text := .str md.content
    value := .undefined
    bbox := { xmin := 0, ymin := 0, xmax := 1, ymax := 1 }
    meta := buildMeta
      { confidence := jsNullish (optNum md.confidence) (.num 1)
        verificationStatus := .str status
        verified := .bool (status == "verified")
        source := .str "ai_correction"
        processorType := optStr md.model }
    pageIndex := pageIndex
    tableId := none
    rowIndex := none
    colIndex := none }

/-! ## Stable sort (model of Array.prototype.sort) -/

/-- One insertion step: x is placed before the first element y with
lt y x false, so relative order among earlier tied elements survives. -/
def insertIn (lt : α → α → Bool) (x : α) : List α → List α
  | [] => [x]
  | y :: ys => if lt y x then y :: insertIn lt x ys else x :: y :: ys

/-- Stable sort where lt a b models comparator a b returning a negative
number. Since ES2019 Array.prototype.sort must be stable, and for a
consistent comparator every stable sort produces the same list. -/
def stableSortBy (lt : α → α → Bool) : List α → List α
  | [] => []
  | x :: xs => insertIn lt x (stableSortBy lt xs)

/-! ## Page building and compilation (src/compiler.ts lines 132-247) -/

structure PageMeta where
  totalEntities : Nat
  verifiedCount : Nat
  flaggedCount : Nat
  pendingCount : Nat
  avgConfidence : ℚ
  verificationScore : ℚ
deriving DecidableEq, Repr

structure VirtualPage where
  id : String
  pageIndex : Int
  pageNumber : Int
  entities : List VirtualEntity
  meta : PageMeta
  markdown : Option String
deriving DecidableEq, Repr

structure DocMeta where
  fileName : String
  documentType : String
  totalPages : Nat
  totalEntities : Nat
  verifiedCount : Nat
  flaggedCount : Nat
  pendingCount : Nat
  verificationScore : ℚ
  createdAt : Int
  lastModified : Int
deriving DecidableEq, Repr

structure VirtualDoc where
  id : String
  version : Int
  pages : List VirtualPage
  meta : DocMeta
deriving DecidableEq, Repr

/-- Verification status string of an entity (compiler-built metas always
store a string here). -/
def entityStatusStr (e : VirtualEntity) : String :=
  match metaLookup e.meta "verificationStatus" with
  | some (.str s) => s
  | _ => ""

/-- Confidence of an entity as a rational (compiler-built metas always
store a number here). -/
def entityConfidenceQ (e : VirtualEntity) : ℚ :=
  match metaLookup e.meta "confidence" with
  | some (.num q) => q
  | _ => 0

def calculatePageMeta (entities : List VirtualEntity) : PageMeta :=
  let total := entities.length
  let verified := (entities.filter (fun e => entityStatusStr e == "verified")).length
  let flagged := (entities.filter (fun e => entityStatusStr e == "flagged")).length
  let pending := (entities.filter (fun e => entityStatusStr e == "pending")).length
  let confidenceSum := entities.foldl (fun acc e => acc + entityConfidenceQ e) 0
  { totalEntities := total
    verifiedCount := verified
    flaggedCount := flagged
    pendingCount := pending
    avgConfidence := if total > 0 then confidenceSum / (total : ℚ) else 0
    verificationScore := if total > 0 then (verified : ℚ) / (total : ℚ) else 0 }

structure PageBucket where
  tables : List SourceTable
  entities : List SourceEntity
  extractedEntities : List SourceExtractedEntity
  ocrBlocks : List SourceOcr
  markdownBlocks : List SourceMarkdown
deriving DecidableEq, Repr

def emptyBucket : PageBucket := ⟨[], [], [], [], []⟩

/-- Comparator of the per-page entity sort (a.bbox.ymin - b.bbox.ymin,
negative result). -/
def ltYmin (a b : VirtualEntity) : Bool := decide (a.bbox.ymin < b.bbox.ymin)

/-- The page entity list in layer-by-layer construction order, before
the ymin sort at src/compiler.ts line 236. -/
def buildPageUnsorted (opts : CompilerOptions) (pageNumber : Int)
    (b : PageBucket) : List VirtualEntity :=
  let pageIndex := pageNumber - 1
  (if opts.includeTables then
    b.tables.flatMap (fun t =>
      DocCompiler.tableToEntity t pageIndex ::
        (if opts.parseTableCells && t.markdown != "" then
          DocCompiler.parseTableCells opts t pageIndex
        else []))
  else [])
  ++ b.entities.map (fun e => DocCompiler.sourceEntityToVirtual opts e pageIndex)
  ++ b.extractedEntities.map (fun e => DocCompiler.extractedEntityToVirtual e pageIndex)
  ++ b.ocrBlocks.map (fun o => DocCompiler.ocrBlockToVirtual o pageIndex)
  ++ b.markdownBlocks.map (fun m => DocCompiler.markdownBlockToVirtual m pageIndex)

def DocCompiler.buildPage (opts : CompilerOptions) (pageNumber : Int)
    (b : PageBucket) : VirtualPage :=
  let pageIndex := pageNumber - 1
  let sorted := stableSortBy ltYmin (buildPageUnsorted opts pageNumber b)
  { id := "p_" ++ toString pageIndex
    pageIndex := pageIndex
    pageNumber := pageNumber
    entities := sorted
    meta := calculatePageMeta sorted
    markdown := if b.markdownBlocks.length > 0
      then some (String.intercalate "\n\n" (b.markdownBlocks.map (fun m => m.content)))
      else none }

structure CompilerState where
  options : CompilerOptions
  tables : List SourceTable
  entities : List SourceEntity
  extractedEntities : List SourceExtractedEntity
  ocrBlocks : List SourceOcr
  markdownBlocks : List SourceMarkdown
  version : Int
deriving DecidableEq, Repr

/-- First-occurrence deduplication, the iteration order of a JS Set. -/
def dedupFirstGo [DecidableEq α] (seen : List α) : List α → List α
  | [] => []
  | x :: xs => if x ∈ seen then dedupFirstGo seen xs
    else x :: dedupFirstGo (x :: seen) xs

def dedupFirst [DecidableEq α] (l : List α) : List α := dedupFirstGo [] l

/-- All page numbers referenced by any layer, in Set insertion order. -/
def collectPageNumbers (st : CompilerState) : List Int :=
  st.tables.map (fun t => t.page_number)
    ++ st.entities.map (fun e => e.page_number)
    ++ st.extractedEntities.map (fun e => e.page)
    ++ st.ocrBlocks.map (fun o => o.page)
    ++ st.markdownBlocks.map (fun m => m.page)

def PageMap := List (Int × PageBucket)

def hasKey (m : PageMap) (p : Int) : Bool := m.any (fun kv => kv.1 == p)

def mapUpdate (m : PageMap) (p : Int) (f : PageBucket → PageBucket) : PageMap :=
  m.map (fun kv => if kv.1 == p then (kv.1, f kv.2) else kv)

def mapLookup (m : PageMap) (p : Int) : Option PageBucket :=
  (m.find? (fun kv => kv.1 == p)).map (fun kv => kv.2)

/-- One pageMap.get(p) followed by a push; none models the TypeError the
source would raise on a missing bucket. -/
def fillStep (m : PageMap) (p : Int) (f : PageBucket → PageBucket) : Option PageMap :=
  if hasKey m p then some (mapUpdate m p f) else none

def foldOpt (f : β → α → Option β) : β → List α → Option β
  | b, [] => some b
  | b, a :: as =>
    match f b a with
    | some b2 => foldOpt f b2 as
    | none => none

def fillLayer (pageOf : α → Int) (push : α → PageBucket → PageBucket)
    (m : PageMap) (items : List α) : Option PageMap :=
  foldOpt (fun m2 it => fillStep m2 (pageOf it) (push it)) m items

def initialPageMap (st : CompilerState) : PageMap :=
  (dedupFirst (collectPageNumbers st)).map (fun p => (p, emptyBucket))

def fillPageMap (st : CompilerState) : Option PageMap := do
  let m0 := initialPageMap st
  let m1 ← fillLayer (fun t => t.page_number)
    (fun t b => { b with tables := b.tables ++ [t] }) m0 st.tables
  let m2 ← fillLayer (fun e => e.page_number)
    (fun e b => { b with entities := b.entities ++ [e] }) m1 st.entities
  let m3 ← fillLayer (fun e => e.page)
    (fun e b => { b with extractedEntities := b.extractedEntities ++ [e] }) m2 st.extractedEntities
  let m4 ← fillLayer (fun o => o.page)
    (fun o b => { b with ocrBlocks := b.ocrBlocks ++ [o] }) m3 st.ocrBlocks
  fillLayer (fun md => md.page)
    (fun md b => { b with markdownBlocks := b.markdownBlocks ++ [md] }) m4 st.markdownBlocks

def mapOpt (f : α → Option β) : List α → Option (List β)
  | [] => some []
  | a :: as =>
    match f a, mapOpt f as with
    | some b, some bs => some (b :: bs)
    | _, _ => none

/-- DocCompiler.compile. The Option layer records the places where the
source dereferences a map lookup without a check; none models a thrown
TypeError. -/
def DocCompiler.compile (st : CompilerState) (now : Int) : Option VirtualDoc := do
  let m ← fillPageMap st
  let sortedPageNumbers := stableSortBy (fun a b => decide (a < b))
    (dedupFirst (collectPageNumbers st))
  let pages ← mapOpt (fun p =>
    (mapLookup m p).map (fun b => DocCompiler.buildPage st.options p b)) sortedPageNumbers
  let totalEntities := pages.foldl (fun acc pg => acc + pg.meta.totalEntities) 0
  let verifiedCount := pages.foldl (fun acc pg => acc + pg.meta.verifiedCount) 0
  let flaggedCount := pages.foldl (fun acc pg => acc + pg.meta.flaggedCount) 0
  let pendingCount := pages.foldl (fun acc pg => acc + pg.meta.pendingCount) 0
  some
    { id := st.options.documentId
      version := st.version
      pages := pages
      meta :=
        { fileName := st.options.fileName
          documentType := st.options.documentType
          totalPages := pages.length
          totalEntities := totalEntities
          verifiedCount := verifiedCount
          flaggedCount := flaggedCount
          pendingCount := pendingCount
          verificationScore := if totalEntities > 0
            then (verifiedCount : ℚ) / (totalEntities : ℚ) else 0
          createdAt := now
          lastModified := now } }

/-! ## Query result state (src/query.ts) -/

structure EntityChange where
  entityId : String
  pageIndex : Int
  field : String
  oldValue : JsValue
  newValue : JsValue
  timestamp : Int
deriving DecidableEq, Repr

/-- A QueryResult: the selected entities plus the local mutation log.
The owning document is represented by its version counter, threaded
through the mutating operations. -/
structure QueryResult where
  elements : List VirtualEntity
  mutationLog : List EntityChange
deriving DecidableEq, Repr

/-- getEntityValue / QueryResult.getEntityAttr: meta first, then the
top-level entity fields (an absent optional field and a field stored as
undefined are indistinguishable through this read). -/
def getEntityValue (e : VirtualEntity) (k : String) : JsValue :=
  match metaLookup e.meta k with
  | some v => v
  | none =>
    if k == "id" then .str e.id
    else if k == "type" then e.type
    else if k == "text" then e.text
    else if k == "value" then e.value
    else if k == "bbox" then .objRef "bbox"
    else if k == "meta" then .objRef "meta"
    else if k == "pageIndex" then .num (e.pageIndex : ℚ)
    else if k == "tableId" then
      match e.tableId with
      | some s => .str s
      | none => .undefined
    else if k == "rowIndex" then
      match e.rowIndex with
      | some i => .num (i : ℚ)
      | none => .undefined
    else if k == "colIndex" then
      match e.colIndex with
      | some i => .num (i : ℚ)
      | none => .undefined
    else .undefined

/-- QueryResult.getEntityAttr has the same body as getEntityValue. -/
def QueryResult.getEntityAttr (e : VirtualEntity) (k : String) : JsValue :=
  getEntityValue e k

/-- The meta-field allow list of QueryResult.setEntityAttr. -/
def metaFieldsList : List String :=
  ["verified", "verificationStatus", "verifiedBy", "verifiedAt",
   "confidence", "wasCorrected", "correctionType", "source",
   "processorType", "flagReason", "flaggedBy", "flaggedAt",
   "highlight", "selected"]

/-- Property assignment on a meta object: overwrite in place when the
key exists, append otherwise. -/
def metaSet (m : List (String × JsValue)) (k : String) (v : JsValue) :
    List (String × JsValue) :=
  if m.any (fun kv => kv.1 == k) then
    m.map (fun kv => if kv.1 == k then (kv.1, v) else kv)
  else m ++ [(k, v)]

/-- The delete operator on a meta object. -/
def metaErase (m : List (String × JsValue)) (k : String) :
    List (String × JsValue) :=
  m.filter (fun kv => kv.1 != k)

/-- QueryResult.setEntityAttr: allow-listed meta fields go to meta, the
three mutable entity fields go to the entity, anything else becomes a
meta extension. -/
def setEntityAttr (e : VirtualEntity) (k : String) (v : JsValue) : VirtualEntity :=
  if metaFieldsList.contains k then { e with meta := metaSet e.meta k v }
  else if k == "text" then { e with text := v }
  else if k == "value" then { e with value := v }
  else if k == "type" then { e with type := v }
  else { e with meta := metaSet e.meta k v }

/-- The inner loop of QueryResult.setAttrs for one entity: each field is
compared with strict equality and written (and logged) only on change. -/
def applyAttrsEntity (attrs : List (String × JsValue)) (now : Int)
    (e : VirtualEntity) : VirtualEntity × List EntityChange :=
  attrs.foldl
    (fun acc kv =>
      let old := QueryResult.getEntityAttr acc.1 kv.1
      if jsStrictEq old kv.2 then acc
      else
        (setEntityAttr acc.1 kv.1 kv.2,
         acc.2 ++ [{ entityId := acc.1.id, pageIndex := acc.1.pageIndex,
                     field := kv.1, oldValue := old, newValue := kv.2,
                     timestamp := now }]))
    (e, [])

/-- QueryResult.setAttrs (also reached through attr with a value or an
attribute object). The version bump tests the cumulative mutation log,
not the delta of this call. -/
def QueryResult.setAttrs (attrs : List (String × JsValue)) (now : Int)
    (r : QueryResult) (docVersion : Int) : QueryResult × Int :=
  let processed := r.elements.map (applyAttrsEntity attrs now)
  let log := r.mutationLog ++ processed.flatMap (fun p => p.2)
  ({ elements := processed.map (fun p => p.1), mutationLog := log },
   if log.length > 0 then docVersion + 1 else docVersion)

/-- The inner loop of QueryResult.removeAttr for one entity: a defined
value is logged with newValue undefined, but only keys present in the
meta object are actually deleted. -/
def removeAttrEntity (keys : List String) (now : Int)
    (e : VirtualEntity) : VirtualEntity × List EntityChange :=
  keys.foldl
    (fun acc k =>
      let old := QueryResult.getEntityAttr acc.1 k
      if jsStrictEq old .undefined then acc
      else
        let logged := acc.2 ++ [{ entityId := acc.1.id, pageIndex := acc.1.pageIndex,
                                  field := k, oldValue := old, newValue := .undefined,
                                  timestamp := now }]
        if acc.1.meta.any (fun kv => kv.1 == k) then
          ({ acc.1 with meta := metaErase acc.1.meta k }, logged)
        else (acc.1, logged))
    (e, [])

/-- QueryResult.removeAttr. -/
def QueryResult.removeAttr (keys : List String) (now : Int)
    (r : QueryResult) (docVersion : Int) : QueryResult × Int :=
  let processed := r.elements.map (removeAttrEntity keys now)
  let log := r.mutationLog ++ processed.flatMap (fun p => p.2)
  ({ elements := processed.map (fun p => p.1), mutationLog := log },
   if log.length > 0 then docVersion + 1 else docVersion)

/-- QueryResult.changes returns a copy of the mutation log. -/
def QueryResult.changes (r : QueryResult) : List EntityChange := r.mutationLog

/-- Math.abs on rationals, modelled by a sign test. -/
def qabs (q : ℚ) : ℚ := if q < 0 then -q else q

/-- The comparator of QueryResult.sortByPosition. -/
def cmpPosition (a b : VirtualEntity) : ℚ :=
  let yDiff := a.bbox.ymin - b.bbox.ymin
  if qabs yDiff > 1/100 then yDiff else a.bbox.xmin - b.bbox.xmin

def ltPosition (a b : VirtualEntity) : Bool := decide (cmpPosition a b < 0)

/-- QueryResult.sortByPosition: a new result over a sorted copy. -/
def QueryResult.sortByPosition (r : QueryResult) : QueryResult :=
  { elements := stableSortBy ltPosition r.elements, mutationLog := [] }

/-! ## String and number coercions used by the selector matcher -/

/-- Fraction digits of a rational in [0,1), up to the given fuel. -/
def ratFracDigits : ℕ → ℚ → List Char
  | 0, _ => []
  | fuel + 1, f =>
    if f = 0 then []
    else
      let f10 := f * 10
      let d := f10.floor.toNat
      Char.ofNat ('0'.toNat + d) :: ratFracDigits fuel (f10 - f10.floor)

/-- Decimal rendering of a rational, 20 fraction digits of precision.
String(n) on a double uses the shortest round-tripping decimal; for the
short terminating decimals that occur in practice the two agree. -/
def jsNumToString (q : ℚ) : String :=
  if q.den = 1 then toString q.num
  else
    let sgn := if q < 0 then "-" else ""
    let a := |q|
    let ip := a.floor.toNat
    sgn ++ toString ip ++ "." ++ String.mk (ratFracDigits 20 (a - a.floor))

/-- The String() coercion. -/
def jsToString (v : JsValue) : String :=
  match v with
  | .undefined => "undefined"
  | .null => "null"
  | .bool b => if b then "true" else "false"
  | .num q => jsNumToString q
  | .str s => s
  | .objRef _ => "[object Object]"

/-- Well-formed exponent tail for Number(); anything else is NaN. -/
def jsNumExponent (sgn mantissa : ℚ) (r : List Char) : Option ℚ :=
  let esgn : ℤ := match r with
    | '-' :: _ => -1
    | _ => 1
  let r1 := match r with
    | '-' :: t => t
    | '+' :: t => t
    | _ => r
  let ed := r1.takeWhile Char.isDigit
  let r2 := r1.dropWhile Char.isDigit
  if ed.isEmpty || !r2.isEmpty then none
  else some (sgn * mantissa * 10 ^ (esgn * (digitsVal ed).num))

/-- Full-string numeric parse of the Number() coercion on strings
(whitespace-trimmed; empty means 0; trailing garbage means NaN; the
hexadecimal and infinity forms are outside the model). -/
def jsStringToNumber (s : String) : Option ℚ :=
  let l := jsTrimList s.data
  if l.isEmpty then some 0
  else
    let sgn : ℚ := match l with
      | '-' :: _ => -1
      | _ => 1
    let l1 := match l with
      | '-' :: r => r
      | '+' :: r => r
      | _ => l
    let ip := l1.takeWhile Char.isDigit
    let l2 := l1.dropWhile Char.isDigit
    let fp := match l2 with
      | '.' :: r => r.takeWhile Char.isDigit
      | _ => []
    let l3 := match l2 with
      | '.' :: r => r.dropWhile Char.isDigit
      | _ => l2
    if ip.isEmpty && fp.isEmpty then none
    else
      let mantissa : ℚ := digitsVal ip + digitsVal fp / 10 ^ fp.length
      match l3 with
      | [] => some (sgn * mantissa)
      | 'e' :: r => jsNumExponent sgn mantissa r
      | 'E' :: r => jsNumExponent sgn mantissa r
      | _ => none

/-- The Number() coercion; none models NaN. -/
def jsToNumber (v : JsValue) : Option ℚ :=
  match v with
  | .undefined => none
  | .null => some 0
  | .bool b => some (if b then 1 else 0)
  | .num q => some q
  | .str s => jsStringToNumber s
  | .objRef _ => none

/-- parseInt(s, 10): leading whitespace, optional sign, leading digits;
none models NaN. -/
def jsParseInt (l0 : List Char) : Option Int :=
  let l := l0.dropWhile jsIsSpace
  let sgn : ℤ := match l with
    | '-' :: _ => -1
    | _ => 1
  let l1 := match l with
    | '-' :: r => r
    | '+' :: r => r
    | _ => l
  let ds := l1.takeWhile Char.isDigit
  if ds.isEmpty then none
  else some (sgn * (digitsVal ds).num)

/-- Digit-list value as a natural number. -/
def digitsNat (l : List Char) : ℕ :=
  l.foldl (fun a c => a * 10 + (c.toNat - '0'.toNat)) 0

/-! ## Compound selector scanner (parseCompoundSelector, src/query.ts) -/

/-- The regex class backslash-w plus hyphen used by the scanner. -/
def wordHyphen (c : Char) : Bool := c.isAlphanum || c == '_' || c == '-'

/-- The regex class backslash-w (no hyphen), used in attribute bodies. -/
def isWordChar (c : Char) : Bool := c.isAlphanum || c == '_'

/-- Number of characters consumed by the balanced-parentheses loop of
the pseudo-class branch, entered at the given depth. -/
def balancedConsume : ℕ → List Char → ℕ
  | _, [] => 0
  | d, c :: rest =>
    let d2 := if c == '(' then d + 1 else if c == ')' then d - 1 else d
    if d2 = 0 then 1 else 1 + balancedConsume d2 rest

/-- The character loop of parseCompoundSelector, yielding the list of
simple-selector parts; unrecognized characters are skipped. -/
def parseCompoundGo : List Char → List (List Char)
  | [] => []
  | c :: rest =>
    if c == '.' || c == '#' then
      let w := rest.takeWhile wordHyphen
      let r2 := rest.dropWhile wordHyphen
      (if w.isEmpty then [] else [c :: w]) ++ parseCompoundGo r2
    else if c == '[' then
      let inner := rest.takeWhile (fun x => !(x == ']'))
      match h : rest.dropWhile (fun x => !(x == ']')) with
      | ']' :: r3 => (('[' :: inner) ++ [']']) :: parseCompoundGo r3
      | r2 => ('[' :: inner) :: parseCompoundGo r2
    else if c == ':' then
      let w := rest.takeWhile wordHyphen
      match h : rest.dropWhile wordHyphen with
      | '(' :: r3 =>
        let n := balancedConsume 1 r3
        ((':' :: w) ++ ('(' :: r3.take n)) :: parseCompoundGo (r3.drop n)
      | r2 => (if w.isEmpty then [] else [':' :: w]) ++ parseCompoundGo r2
    else if c == '*' then
      ['*'] :: parseCompoundGo rest
    else parseCompoundGo rest
termination_by l => l.length
decreasing_by
  all_goals simp only [List.length_cons]
  · have h1 := (List.dropWhile_sublist (p := wordHyphen) (l := rest)).length_le
    omega
  · have h1 := (List.dropWhile_sublist (p := fun x => !(x == ']')) (l := rest)).length_le
    have h2 := congrArg List.length h
    simp only [List.length_cons] at h2
    omega
  · have h1 := (List.dropWhile_sublist (p := fun x => !(x == ']')) (l := rest)).length_le
    rw [h] at h1
    omega
  · have h1 := (List.dropWhile_sublist (p := wordHyphen) (l := rest)).length_le
    have h2 := congrArg List.length h
    simp only [List.length_cons] at h2
    have h3 := (List.drop_sublist (balancedConsume 1 r3) r3).length_le
    omega
  · have h1 := (List.dropWhile_sublist (p := wordHyphen) (l := rest)).length_le
    rw [h] at h1
    omega
  · omega
  · omega

/-! ## Simple selector matching (matchesSingleSelector, src/query.ts) -/

/-- Suffix test on character lists (String.prototype.endsWith). -/
def listEndsWith (l pat : List Char) : Bool :=
  listStartsWith l.reverse pat.reverse

/-- The quote strip replace(/^["] or [quote]$/g, ""): one leading and one
trailing quote character are removed when present. -/
def stripQuotes (l : List Char) : List Char :=
  let l1 := match l with
    | c :: rest => if c == '"' || c == '\'' then rest else l
    | [] => l
  match l1.reverse with
  | c :: rest => if c == '"' || c == '\'' then rest.reverse else l1
  | [] => l1

/-- The string-operator attribute form: word key, one of the operators
equals, caret-equals, dollar-equals, star-equals, nonempty value. -/
def attrStringOp (content : List Char) : Option (List Char × String × List Char) :=
  let key := content.takeWhile isWordChar
  let r := content.dropWhile isWordChar
  if key.isEmpty then none
  else
    match r with
    | '^' :: '=' :: v => if v.isEmpty then none else some (key, "^=", v)
    | '$' :: '=' :: v => if v.isEmpty then none else some (key, "$=", v)
    | '*' :: '=' :: v => if v.isEmpty then none else some (key, "*=", v)
    | '=' :: v => if v.isEmpty then none else some (key, "=", v)
    | _ => none

/-- The comparison attribute form; the one-character fallbacks reproduce
the regex backtracking of (>=?|<=?|!=)(.+) on inputs ending in the
equals sign. -/
def attrCompOp (content : List Char) : Option (List Char × String × List Char) :=
  let key := content.takeWhile isWordChar
  let r := content.dropWhile isWordChar
  if key.isEmpty then none
  else
    match r with
    | '>' :: '=' :: v => if v.isEmpty then some (key, ">", ['=']) else some (key, ">=", v)
    | '>' :: v => if v.isEmpty then none else some (key, ">", v)
    | '<' :: '=' :: v => if v.isEmpty then some (key, "<", ['=']) else some (key, "<=", v)
    | '<' :: v => if v.isEmpty then none else some (key, "<", v)
    | '!' :: '=' :: v => if v.isEmpty then none else some (key, "!=", v)
    | _ => none

/-- parseValue of src/query.ts line 1452 (selector literal typing). -/
def selParseValue (v : List Char) : JsValue :=
  if v == "true".data then .bool true
  else if v == "false".data then .bool false
  else
    match jsParseFloat v with
    | some q => .num q
    | none => .str (String.mk (stripQuotes v))

/-- The page comparison of the :page pseudo-class. -/
def pageCompare (page : ℤ) (content : List Char) : Bool :=
  match content with
  | '<' :: '=' :: v =>
    if !v.isEmpty && v.all Char.isDigit then decide (page ≤ (digitsNat v : ℤ))
    else
      match jsParseInt content with
      | some n => page == n
      | none => false
  | '<' :: v =>
    if !v.isEmpty && v.all Char.isDigit then decide (page < (digitsNat v : ℤ))
    else
      match jsParseInt content with
      | some n => page == n
      | none => false
  | '>' :: '=' :: v =>
    if !v.isEmpty && v.all Char.isDigit then decide ((digitsNat v : ℤ) ≤ page)
    else
      match jsParseInt content with
      | some n => page == n
      | none => false
  | '>' :: v =>
    if !v.isEmpty && v.all Char.isDigit then decide ((digitsNat v : ℤ) < page)
    else
      match jsParseInt content with
      | some n => page == n
      | none => false
  | _ =>
    match jsParseInt content with
    | some n => page == n
    | none => false

/-- The inclusive page range of the :pages pseudo-class. -/
def pagesRange (page : ℤ) (rangeStr : List Char) : Bool :=
  let d1 := rangeStr.takeWhile Char.isDigit
  let r := rangeStr.dropWhile Char.isDigit
  match r with
  | '-' :: d2 =>
    if d1.isEmpty || d2.isEmpty || !(d2.all Char.isDigit) then false
    else decide ((digitsNat d1 : ℤ) ≤ page) && decide (page ≤ (digitsNat d2 : ℤ))
  | _ => false

/-- matchesSingleSelector from src/query.ts. -/
def matchesSingleSelector (e : VirtualEntity) (sel : List Char) : Bool :=
  if sel == ['*'] then true
  else if listStartsWith sel ['.'] then
    jsStrictEq e.type (.str (String.mk (sel.drop 1)))
  else if listStartsWith sel ['['] && listEndsWith sel [']'] then
    let content := (sel.drop 1).dropLast
    match attrStringOp content with
    | some kov =>
      let entityValue := jsToString (jsNullish (getEntityValue e (String.mk kov.1)) (.str ""))
      let targetValue := String.mk (stripQuotes kov.2.2)
      if kov.2.1 == "=" then entityValue == targetValue
      else if kov.2.1 == "^=" then listStartsWith entityValue.data targetValue.data
      else if kov.2.1 == "$=" then listEndsWith entityValue.data targetValue.data
      else listIncludes entityValue.data targetValue.data
    | none =>
      match attrCompOp content with
      | some kov =>
        let entityValue := getEntityValue e (String.mk kov.1)
        let targetValue := selParseValue kov.2.2
        if kov.2.1 == "!=" then !(jsToString entityValue == jsToString targetValue)
        else
          match jsToNumber entityValue, jsToNumber targetValue with
          | some a, some b =>
            if kov.2.1 == ">" then decide (a > b)
            else if kov.2.1 == ">=" then decide (a ≥ b)
            else if kov.2.1 == "<" then decide (a < b)
            else decide (a ≤ b)
          | _, _ => false
      | none =>
        if !content.isEmpty && content.all isWordChar then
          !(getEntityValue e (String.mk content) == JsValue.undefined)
        else false
  else if listStartsWith sel ['#'] then
    e.id == String.mk (sel.drop 1)
  else if listStartsWith sel ":contains(".data && listEndsWith sel [')'] then
    let searchText := jsLowerList (stripQuotes ((sel.drop 10).dropLast))
    match e.text with
    | .str s => listIncludes (jsLowerList s.data) searchText
    | _ => false
  else if listStartsWith sel ":page(".data && listEndsWith sel [')'] then
    pageCompare (e.pageIndex + 1) ((sel.drop 6).dropLast)
  else if listStartsWith sel ":pages(".data && listEndsWith sel [')'] then
    pagesRange (e.pageIndex + 1) ((sel.drop 7).dropLast)
  else false

/-- matchesSelector from src/query.ts: an empty part list matches
nothing, otherwise all compound parts must match. -/
def matchesSelector (e : VirtualEntity) (selector : String) : Bool :=
  if selector == "*" then true
  else
    let parts := parseCompoundGo selector.data
    if parts.length == 0 then false
    else parts.all (fun p => matchesSingleSelector e p)

/-- QueryResult.filter with a string selector. -/
def QueryResult.filter (r : QueryResult) (selector : String) : QueryResult :=
  { elements := r.elements.filter (fun e => matchesSelector e selector)
    mutationLog := [] }

/-! ## OR branches and index pseudo-classes (src/query.ts) -/

/-- The depth-tracking OR scanner splitOrSelector; commas inside square
brackets or parentheses are not split points. -/
def splitOrGo : List Char → List Char → ℤ → List String
  | [], current, _ =>
    let t := jsTrimList current
    if t.isEmpty then [] else [String.mk t]
  | c :: rest, current, depth =>
    if c == '[' || c == '(' then splitOrGo rest (current ++ [c]) (depth + 1)
    else if c == ']' || c == ')' then splitOrGo rest (current ++ [c]) (depth - 1)
    else if c == ',' && depth == 0 then
      String.mk (jsTrimList current) :: splitOrGo rest [] depth
    else splitOrGo rest (current ++ [c]) depth

def splitOrSelector (s : String) : List String := splitOrGo s.data [] 0

inductive IndexFilter where
  | nofilter
  | first
  | last
  | even
  | odd
  | eq (n : ℕ)
  | gt (n : ℕ)
  | lt (n : ℕ)
deriving DecidableEq, Repr

def listStripStart : List Char → List Char → Option (List Char)
  | l, [] => some l
  | [], _ :: _ => none
  | a :: as, b :: bs => if a == b then listStripStart as bs else none

/-- Match a trailing :tag(digits) pseudo-class; tagRev is the tag
reversed. Returns the untouched front and the parsed number. -/
def stripIndexParen (l : List Char) (tagRev : List Char) : Option (List Char × ℕ) :=
  match l.reverse with
  | ')' :: rest =>
    let dsRev := rest.takeWhile Char.isDigit
    let r2 := rest.dropWhile Char.isDigit
    if dsRev.isEmpty then none
    else
      match listStripStart r2 ('(' :: tagRev ++ [':']) with
      | some preRev => some (preRev.reverse, digitsNat dsRev.reverse)
      | none => none
  | _ => none

def dropSuffixN (l : List Char) (n : ℕ) : List Char := l.take (l.length - n)

/-- slice(0, index) or star, then trim or star. -/
def ipsBase (pre : List Char) : String :=
  let b0 := if pre.isEmpty then "*" else String.mk pre
  let t := jsTrim b0
  if t == "" then "*" else t

/-- parseIndexPseudoSelector from src/query.ts, trying the trailing
pseudo-class patterns in the source order. -/
def parseIndexPseudoSelector (selector : String) : String × IndexFilter :=
  let l := selector.data
  if listEndsWith l ":first".data then (ipsBase (dropSuffixN l 6), .first)
  else if listEndsWith l ":last".data then (ipsBase (dropSuffixN l 5), .last)
  else if listEndsWith l ":even".data then (ipsBase (dropSuffixN l 5), .even)
  else if listEndsWith l ":odd".data then (ipsBase (dropSuffixN l 4), .odd)
  else
    match stripIndexParen l ['q', 'e'] with
    | some pn => (ipsBase pn.1, .eq pn.2)
    | none =>
      match stripIndexParen l ['t', 'g'] with
      | some pn => (ipsBase pn.1, .gt pn.2)
      | none =>
        match stripIndexParen l ['t', 'l'] with
        | some pn => (ipsBase pn.1, .lt pn.2)
        | none => (selector, .nofilter)

/-- applyIndexFilter from src/query.ts. -/
def applyIndexFilter (entities : List VirtualEntity) (f : IndexFilter) :
    List VirtualEntity :=
  match f with
  | .nofilter => entities
  | .first =>
    match entities with
    | [] => []
    | e :: _ => [e]
  | .last =>
    match entities.getLast? with
    | some e => [e]
    | none => []
  | .eq n =>
    match entities.get? n with
    | some e => [e]
    | none => []
  | .gt n => entities.drop (n + 1)
  | .lt n => entities.take n
  | .even => (entities.enum.filter (fun ie => ie.1 % 2 == 0)).map (fun ie => ie.2)
  | .odd => (entities.enum.filter (fun ie => ie.1 % 2 == 1)).map (fun ie => ie.2)

/-! ## The query engine (createQueryEngine, src/query.ts) -/

def allEntitiesOf (doc : VirtualDoc) : List VirtualEntity :=
  doc.pages.flatMap (fun p => p.entities)

/-- One OR branch: trim, skip when empty, strip the index pseudo-class,
filter by the base selector, apply the index filter. -/
def branchMatches (all : List VirtualEntity) (branch : String) : List VirtualEntity :=
  let t := jsTrim branch
  if t == "" then []
  else
    let bi := parseIndexPseudoSelector t
    applyIndexFilter (all.filter (fun e => matchesSelector e bi.1)) bi.2

/-- The inner deduplication loop over one branch result: the state is
the id set (insertion list) and the output array. -/
def dedupStep (sa : List String × List VirtualEntity)
    (es : List VirtualEntity) : List String × List VirtualEntity :=
  es.foldl
    (fun sa2 e => if sa2.1.contains e.id then sa2 else (e.id :: sa2.1, sa2.2 ++ [e]))
    sa

/-- The engine returned by createQueryEngine, applied to a selector
string. -/
def queryAll (doc : VirtualDoc) (selector : String) : QueryResult :=
  let all := allEntitiesOf doc
  if selector == "" || selector == "*" then { elements := all, mutationLog := [] }
  else
    let selectors := splitOrSelector selector
    if selectors.length == 1 then
      let bi := parseIndexPseudoSelector selector
      { elements := applyIndexFilter (all.filter (fun e => matchesSelector e bi.1)) bi.2
        mutationLog := [] }
    else
      { elements :=
          (selectors.foldl (fun sa sel => dedupStep sa (branchMatches all sel)) ([], [])).2
        mutationLog := [] }

/-! ## Specification-side characterizations -/

/-- Id-deduplication keeping first occurrences (stated from the spec
wording, to be compared with the engine loop). -/
def dedupByIdGo (seen : List String) : List VirtualEntity → List VirtualEntity
  | [] => []
  | e :: es =>
    if seen.contains e.id then dedupByIdGo seen es
    else e :: dedupByIdGo (e.id :: seen) es

def dedupById (l : List VirtualEntity) : List VirtualEntity := dedupByIdGo [] l

/-- The id set after scanning a list, shared by loop and recursion. -/
def seenUpdate (seen : List String) (es : List VirtualEntity) : List String :=
  es.foldl (fun s e => if s.contains e.id then s else e.id :: s) seen

/-- The bucket that compile() builds for one page, stated directly as
layer filters. -/
def bucketOf (st : CompilerState) (p : Int) : PageBucket :=
  { tables := st.tables.filter (fun t => t.page_number == p)
    entities := st.entities.filter (fun e => e.page_number == p)
    extractedEntities := st.extractedEntities.filter (fun e => e.page == p)
    ocrBlocks := st.ocrBlocks.filter (fun o => o.page == p)
    markdownBlocks := st.markdownBlocks.filter (fun m => m.page == p) }

/-- The layer-by-layer entity list of one page before sorting. -/
def pageEntitiesUnsorted (st : CompilerState) (p : Int) : List VirtualEntity :=
  buildPageUnsorted st.options p (bucketOf st p)

/-- The ordering property claimed for sortByPosition output: any two
entities within the ymin tolerance appear in xmin order, and any two
beyond it appear in ymin order. -/
def claimPositionOrdered (l : List VirtualEntity) : Prop :=
  l.Pairwise (fun a b =>
    (qabs (a.bbox.ymin - b.bbox.ymin) ≤ 1 / 100 → a.bbox.xmin ≤ b.bbox.xmin) ∧
    (¬ qabs (a.bbox.ymin - b.bbox.ymin) ≤ 1 / 100 → a.bbox.ymin ≤ b.bbox.ymin))

instance (l : List VirtualEntity) : Decidable (claimPositionOrdered l) := by
  unfold claimPositionOrdered
  infer_instance

/-- Bounding-box containment. -/
def bboxContained (inner outer : BBox) : Prop :=
  outer.xmin ≤ inner.xmin ∧ inner.xmax ≤ outer.xmax ∧
    outer.ymin ≤ inner.ymin ∧ inner.ymax ≤ outer.ymax

instance (inner outer : BBox) : Decidable (bboxContained inner outer) := by
  unfold bboxContained; infer_instance

/-- Cells of a parsed table that are blank after trimming. -/
def blankCellCount (pt : ParsedTable) : ℕ :=
  (pt.rows.map (fun r => (r.cells.filter (fun c => (jsTrimList c.data).isEmpty)).length)).sum

/-- All cells of a parsed table. -/
def totalCellCount (pt : ParsedTable) : ℕ :=
  (pt.rows.map (fun r => r.cells.length)).sum

/-! ## Lemmas about the stable sort -/

theorem insertIn_eq_append (lt : α → α → Bool) (x : α) (ys : List α) :
    insertIn lt x ys =
      ys.takeWhile (fun y => lt y x) ++ x :: ys.dropWhile (fun y => lt y x) := by
  induction ys with
  | nil => rfl
  | cons y ys ih =>
    by_cases h : lt y x
    · simp [insertIn, h, List.takeWhile_cons, List.dropWhile_cons, ih]
    · simp [insertIn, h, List.takeWhile_cons, List.dropWhile_cons]

theorem insertIn_perm (lt : α → α → Bool) (x : α) (ys : List α) :
    List.Perm (insertIn lt x ys) (x :: ys) := by
  rw [insertIn_eq_append]
  conv_rhs => rw [← List.takeWhile_append_dropWhile (p := fun y => lt y x) (l := ys)]
  exact List.perm_middle

theorem stableSortBy_perm (lt : α → α → Bool) (l : List α) :
    List.Perm (stableSortBy lt l) l := by
  induction l with
  | nil => exact List.Perm.refl _
  | cons x xs ih =>
    exact ((insertIn_perm lt x (stableSortBy lt xs)).trans (List.Perm.cons x ih))

theorem mem_insertIn (lt : α → α → Bool) (x : α) (ys : List α) (a : α) :
    a ∈ insertIn lt x ys ↔ a = x ∨ a ∈ ys := by
  constructor
  · intro h
    rcases (insertIn_perm lt x ys).mem_iff.mp h with h2
    simpa using h2
  · intro h
    apply (insertIn_perm lt x ys).mem_iff.mpr
    simpa using h

theorem insertIn_pairwise_le {κ : Type} [LinearOrder κ] (key : α → κ) (x : α)
    (ys : List α)
    (h : ys.Pairwise (fun a b => key a ≤ key b)) :
    (insertIn (fun a b => decide (key a < key b)) x ys).Pairwise
      (fun a b => key a ≤ key b) := by
  induction ys with
  | nil => simp [insertIn]
  | cons y ys ih =>
    rcases List.pairwise_cons.mp h with ⟨hy, hys⟩
    by_cases hlt : key y < key x
    · have : insertIn (fun a b => decide (key a < key b)) x (y :: ys)
          = y :: insertIn (fun a b => decide (key a < key b)) x ys := by
        simp [insertIn, hlt]
      rw [this]
      refine List.pairwise_cons.mpr ⟨?_, ih hys⟩
      intro a ha
      rcases (mem_insertIn _ x ys a).mp ha with rfl | ha2
      · exact le_of_lt hlt
      · exact hy a ha2
    · have : insertIn (fun a b => decide (key a < key b)) x (y :: ys)
          = x :: y :: ys := by
        simp [insertIn, hlt]
      rw [this]
      refine List.pairwise_cons.mpr ⟨?_, h⟩
      intro a ha
      have hxy : key x ≤ key y := le_of_not_lt hlt
      rcases List.mem_cons.mp ha with rfl | ha2
      · exact hxy
      · exact le_trans hxy (hy a ha2)

theorem stableSortBy_pairwise_le {κ : Type} [LinearOrder κ] (key : α → κ)
    (l : List α) :
    (stableSortBy (fun a b => decide (key a < key b)) l).Pairwise
      (fun a b => key a ≤ key b) := by
  induction l with
  | nil => simp [stableSortBy]
  | cons x xs ih => exact insertIn_pairwise_le key x _ ih

theorem insertIn_filter_key {κ : Type} [DecidableEq κ] (key : α → κ)
    (lt : α → α → Bool) (x : α) (ys : List α) (k : κ)
    (hkey : ∀ a b, key a = key b → lt a b = false) :
    (insertIn lt x ys).filter (fun a => decide (key a = k))
      = if key x = k then x :: ys.filter (fun a => decide (key a = k))
        else ys.filter (fun a => decide (key a = k)) := by
  have hsplit : ys.filter (fun a => decide (key a = k))
      = (ys.takeWhile (fun y => lt y x)).filter (fun a => decide (key a = k))
        ++ (ys.dropWhile (fun y => lt y x)).filter (fun a => decide (key a = k)) := by
    rw [← List.filter_append, List.takeWhile_append_dropWhile]
  rw [insertIn_eq_append, List.filter_append]
  by_cases hx : key x = k
  · have htw : (ys.takeWhile (fun y => lt y x)).filter (fun a => decide (key a = k)) = [] := by
      rw [List.filter_eq_nil_iff]
      intro a ha hak
      have hlt : lt a x = true := by
        simpa using List.mem_takeWhile_imp ha
      have heq : key a = key x := by
        have h1 : key a = k := by simpa using hak
        rw [h1, hx]
      rw [hkey a x heq] at hlt
      exact Bool.noConfusion hlt
    have hxb : decide (key x = k) = true := by simpa using hx
    rw [htw, if_pos hx, hsplit, htw]
    simp [List.filter_cons, hxb]
  · have hxb : decide (key x = k) = false := by simpa using hx
    rw [if_neg hx, hsplit]
    simp [List.filter_cons, hxb]

theorem stableSortBy_filter_key {κ : Type} [DecidableEq κ] (key : α → κ)
    (lt : α → α → Bool) (l : List α) (k : κ)
    (hkey : ∀ a b, key a = key b → lt a b = false) :
    (stableSortBy lt l).filter (fun a => decide (key a = k))
      = l.filter (fun a => decide (key a = k)) := by
  induction l with
  | nil => rfl
  | cons x xs ih =>
    show (insertIn lt x (stableSortBy lt xs)).filter (fun a => decide (key a = k)) = _
    rw [insertIn_filter_key key lt x _ k hkey, ih]
    by_cases hx : key x = k
    · rw [if_pos hx]
      simp [List.filter_cons, hx]
    · rw [if_neg hx]
      have : decide (key x = k) = false := by simpa using hx
      simp [List.filter_cons, this]

theorem insertIn_chain (lt : α → α → Bool)
    (hasymm : ∀ a b, lt a b = true → lt b a = false)
    (x : α) (ys : List α)
    (h : ys.Chain' (fun a b => lt b a = false)) :
    (insertIn lt x ys).Chain' (fun a b => lt b a = false) := by
  induction ys with
  | nil => simp [insertIn]
  | cons y ys ih =>
    by_cases hlt : lt y x
    · have hrw : insertIn lt x (y :: ys) = y :: insertIn lt x ys := by
        simp [insertIn, hlt]
      rw [hrw]
      have hys : ys.Chain' (fun a b => lt b a = false) := h.tail
      refine List.Chain'.cons' (ih hys) ?_
      intro z hz
      cases ys with
      | nil =>
        simp [insertIn] at hz
        subst hz
        exact hasymm y x hlt
      | cons w ws =>
        by_cases hlw : lt w x
        · have : insertIn lt x (w :: ws) = w :: insertIn lt x ws := by
            simp [insertIn, hlw]
          rw [this] at hz
          simp at hz
          subst hz
          exact (List.chain'_cons.mp h).1
        · have : insertIn lt x (w :: ws) = x :: w :: ws := by
            simp [insertIn, hlw]
          rw [this] at hz
          simp at hz
          subst hz
          exact hasymm y x hlt
    · have hrw : insertIn lt x (y :: ys) = x :: y :: ys := by
        simp [insertIn, hlt]
      rw [hrw]
      refine List.chain'_cons.mpr ⟨?_, h⟩
      simpa using hlt

theorem stableSortBy_chain (lt : α → α → Bool)
    (hasymm : ∀ a b, lt a b = true → lt b a = false) (l : List α) :
    (stableSortBy lt l).Chain' (fun a b => lt b a = false) := by
  induction l with
  | nil => simp [stableSortBy]
  | cons x xs ih => exact insertIn_chain lt hasymm x _ ih

theorem qabs_eq_abs (q : ℚ) : qabs q = |q| := by
  by_cases h : q < 0
  · rw [qabs, if_pos h, abs_of_neg h]
  · rw [qabs, if_neg h, abs_of_nonneg (not_lt.mp h)]

theorem cmpPosition_skew (a b : VirtualEntity) :
    cmpPosition a b = -(cmpPosition b a) := by
  unfold cmpPosition
  simp only [qabs_eq_abs]
  have habs : |a.bbox.ymin - b.bbox.ymin| = |b.bbox.ymin - a.bbox.ymin| := abs_sub_comm _ _
  by_cases h : |a.bbox.ymin - b.bbox.ymin| > 1 / 100
  · rw [if_pos h, if_pos (by rw [← habs]; exact h)]
    ring
  · rw [if_neg h, if_neg (by rw [← habs]; exact h)]
    ring

theorem ltPosition_asymm (a b : VirtualEntity) :
    ltPosition a b = true → ltPosition b a = false := by
  unfold ltPosition
  intro h
  have h1 : cmpPosition a b < 0 := of_decide_eq_true h
  have h2 : cmpPosition b a > 0 := by
    have := cmpPosition_skew a b
    nlinarith [this]
  simp only [decide_eq_false_iff_not]
  exact not_lt.mpr (le_of_lt h2)

/-! ## Lemmas about id deduplication (the OR union) -/

theorem dedupStep_eq (seen : List String) (acc es : List VirtualEntity) :
    dedupStep (seen, acc) es = (seenUpdate seen es, acc ++ dedupByIdGo seen es) := by
  induction es generalizing seen acc with
  | nil => simp [dedupStep, seenUpdate, dedupByIdGo]
  | cons e es ih =>
    by_cases h : e.id ∈ seen
    · have h1 : dedupStep (seen, acc) (e :: es) = dedupStep (seen, acc) es := by
        simp [dedupStep, h]
      have h2 : seenUpdate seen (e :: es) = seenUpdate seen es := by
        simp [seenUpdate, h]
      have h3 : dedupByIdGo seen (e :: es) = dedupByIdGo seen es := by
        simp [dedupByIdGo, h]
      rw [h1, h2, h3, ih]
    · have h1 : dedupStep (seen, acc) (e :: es)
          = dedupStep (e.id :: seen, acc ++ [e]) es := by
        simp [dedupStep, h]
      have h2 : seenUpdate seen (e :: es) = seenUpdate (e.id :: seen) es := by
        simp [seenUpdate, h]
      have h3 : dedupByIdGo seen (e :: es) = e :: dedupByIdGo (e.id :: seen) es := by
        simp [dedupByIdGo, h]
      rw [h1, h2, h3, ih]
      simp

theorem dedupByIdGo_append (seen : List String) (xs ys : List VirtualEntity) :
    dedupByIdGo seen (xs ++ ys)
      = dedupByIdGo seen xs ++ dedupByIdGo (seenUpdate seen xs) ys := by
  induction xs generalizing seen with
  | nil => simp [dedupByIdGo, seenUpdate]
  | cons e xs ih =>
    by_cases h : e.id ∈ seen
    · simp only [List.cons_append]
      have h1 : dedupByIdGo seen (e :: (xs ++ ys)) = dedupByIdGo seen (xs ++ ys) := by
        simp [dedupByIdGo, h]
      have h2 : dedupByIdGo seen (e :: xs) = dedupByIdGo seen xs := by
        simp [dedupByIdGo, h]
      have h3 : seenUpdate seen (e :: xs) = seenUpdate seen xs := by
        simp [seenUpdate, h]
      rw [h1, h2, h3, ih]
    · simp only [List.cons_append]
      have h1 : dedupByIdGo seen (e :: (xs ++ ys))
          = e :: dedupByIdGo (e.id :: seen) (xs ++ ys) := by
        simp [dedupByIdGo, h]
      have h2 : dedupByIdGo seen (e :: xs) = e :: dedupByIdGo (e.id :: seen) xs := by
        simp [dedupByIdGo, h]
      have h3 : seenUpdate seen (e :: xs) = seenUpdate (e.id :: seen) xs := by
        simp [seenUpdate, h]
      rw [h1, h2, h3, ih]
      simp

theorem seenUpdate_append (seen : List String) (xs ys : List VirtualEntity) :
    seenUpdate seen (xs ++ ys) = seenUpdate (seenUpdate seen xs) ys := by
  simp [seenUpdate, List.foldl_append]

theorem queryOr_fold (all : List VirtualEntity) (branches : List String)
    (seen : List String) (acc : List VirtualEntity) :
    branches.foldl (fun sa sel => dedupStep sa (branchMatches all sel)) (seen, acc)
      = (seenUpdate seen (branches.flatMap (branchMatches all)),
         acc ++ dedupByIdGo seen (branches.flatMap (branchMatches all))) := by
  induction branches generalizing seen acc with
  | nil => simp [seenUpdate, dedupByIdGo]
  | cons b bs ih =>
    simp only [List.foldl_cons, List.flatMap_cons]
    rw [dedupStep_eq, ih, seenUpdate_append, dedupByIdGo_append]
    simp

/-! ## Lemmas about the page map -/

theorem mem_dedupFirstGo [DecidableEq α] (l : List α) :
    ∀ (seen : List α) (x : α), x ∈ dedupFirstGo seen l ↔ x ∈ l ∧ x ∉ seen := by
  induction l with
  | nil => intro seen x; simp [dedupFirstGo]
  | cons a l ih =>
    intro seen x
    by_cases h : a ∈ seen
    · rw [show dedupFirstGo seen (a :: l) = dedupFirstGo seen l by simp [dedupFirstGo, h]]
      rw [ih]
      constructor
      · rintro ⟨h1, h2⟩
        exact ⟨List.mem_cons_of_mem a h1, h2⟩
      · rintro ⟨h1, h2⟩
        rcases List.mem_cons.mp h1 with rfl | h3
        · exact absurd h h2
        · exact ⟨h3, h2⟩
    · rw [show dedupFirstGo seen (a :: l) = a :: dedupFirstGo (a :: seen) l by
        simp [dedupFirstGo, h]]
      simp only [List.mem_cons, ih, List.mem_cons]
      by_cases hax : x = a
      · subst hax
        tauto
      · tauto

theorem mem_dedupFirst [DecidableEq α] (l : List α) (x : α) :
    x ∈ dedupFirst l ↔ x ∈ l := by
  unfold dedupFirst
  rw [mem_dedupFirstGo]
  simp

theorem nodup_dedupFirstGo [DecidableEq α] (l : List α) :
    ∀ seen : List α, (dedupFirstGo seen l).Nodup := by
  induction l with
  | nil => intro seen; simp [dedupFirstGo]
  | cons a l ih =>
    intro seen
    by_cases h : a ∈ seen
    · rw [show dedupFirstGo seen (a :: l) = dedupFirstGo seen l by simp [dedupFirstGo, h]]
      exact ih seen
    · rw [show dedupFirstGo seen (a :: l) = a :: dedupFirstGo (a :: seen) l by
        simp [dedupFirstGo, h]]
      refine List.nodup_cons.mpr ⟨?_, ih (a :: seen)⟩
      intro hmem
      have := (mem_dedupFirstGo l (a :: seen) a).mp hmem
      exact this.2 (List.mem_cons_self a seen)

theorem nodup_dedupFirst [DecidableEq α] (l : List α) : (dedupFirst l).Nodup :=
  nodup_dedupFirstGo l []

theorem hasKey_mapUpdate (m : PageMap) (p q : Int) (f : PageBucket → PageBucket) :
    hasKey (mapUpdate m p f) q = hasKey m q := by
  induction m with
  | nil => rfl
  | cons kv m ih =>
    show hasKey ((if kv.1 == p then (kv.1, f kv.2) else kv) :: mapUpdate m p f) q = _
    by_cases h : kv.1 == p
    · simp only [if_pos h]
      show (kv.1 == q || hasKey (mapUpdate m p f) q) = (kv.1 == q || hasKey m q)
      rw [ih]
    · simp only [if_neg h]
      show (kv.1 == q || hasKey (mapUpdate m p f) q) = (kv.1 == q || hasKey m q)
      rw [ih]

theorem mapLookup_mapUpdate (m : PageMap) (p q : Int) (f : PageBucket → PageBucket) :
    mapLookup (mapUpdate m p f) q
      = if q = p then (mapLookup m q).map f else mapLookup m q := by
  induction m with
  | nil => simp [mapLookup, mapUpdate]
  | cons kv m ih =>
    show mapLookup ((if kv.1 == p then (kv.1, f kv.2) else kv) :: mapUpdate m p f) q = _
    by_cases hq : kv.1 = q
    · by_cases hp : kv.1 = p
      · have h1 : q = p := by rw [← hq, hp]
        simp [mapLookup, mapUpdate, List.find?_cons, hq, hp, h1]
      · have h1 : ¬ q = p := by rw [← hq]; exact hp
        simp [mapLookup, List.find?_cons, hq, hp, h1]
    · by_cases hp : kv.1 = p
      · have hbeq : (kv.1 == p) = true := by simpa using hp
        simp only [if_pos hbeq]
        show mapLookup ((kv.1, f kv.2) :: mapUpdate m p f) q = _
        have hne : (kv.1 == q) = false := by simpa using hq
        simp only [mapLookup, List.find?_cons, hne]
        exact ih
      · have hbeq : (kv.1 == p) = false := by simpa using hp
        rw [if_neg (by simp [hbeq])]
        have hne : (kv.1 == q) = false := by simpa using hq
        simp only [mapLookup, List.find?_cons, hne]
        exact ih

theorem mapLookup_isSome_of_hasKey (m : PageMap) (p : Int)
    (h : hasKey m p = true) : (mapLookup m p).isSome = true := by
  induction m with
  | nil => exact absurd h (by simp [hasKey])
  | cons kv m ih =>
    by_cases hk : kv.1 == p
    · simp [mapLookup, List.find?_cons, hk]
    · have h2 : hasKey m p = true := by
        have := h
        simp only [hasKey, List.any_cons] at this
        rcases Bool.or_eq_true_iff.mp this with h3 | h3
        · exact absurd h3 (by simp [hk])
        · exact h3
      simpa [mapLookup, List.find?_cons, hk] using ih h2

theorem hasKey_of_mapLookup_some (m : PageMap) (p : Int) (b : PageBucket)
    (h : mapLookup m p = some b) : hasKey m p = true := by
  induction m with
  | nil => simp [mapLookup] at h
  | cons kv m ih =>
    by_cases hk : kv.1 == p
    · simp [hasKey, List.any_cons, hk]
    · simp only [mapLookup, List.find?_cons, hk] at h
      have h3 := ih (by simpa [mapLookup] using h)
      unfold hasKey at h3 ⊢
      rw [List.any_cons, h3, Bool.or_true]

theorem fillLayer_some {α : Type} (pageOf : α → Int)
    (push : α → PageBucket → PageBucket) (items : List α) :
    ∀ m : PageMap, (∀ it ∈ items, hasKey m (pageOf it) = true) →
    ∃ m', fillLayer pageOf push m items = some m'
      ∧ (∀ q, hasKey m' q = hasKey m q)
      ∧ (∀ p, mapLookup m' p = (mapLookup m p).map
          (fun b => (items.filter (fun it => pageOf it == p)).foldl
            (fun b2 it => push it b2) b)) := by
  induction items with
  | nil =>
    intro m _
    refine ⟨m, rfl, fun q => rfl, fun p => ?_⟩
    simp
  | cons it rest ih =>
    intro m h
    have hk : hasKey m (pageOf it) = true := h it (List.mem_cons_self it rest)
    have hstep : fillStep m (pageOf it) (push it) = some (mapUpdate m (pageOf it) (push it)) := by
      simp [fillStep, hk]
    have hrest : ∀ it2 ∈ rest, hasKey (mapUpdate m (pageOf it) (push it)) (pageOf it2) = true := by
      intro it2 hm
      rw [hasKey_mapUpdate]
      exact h it2 (List.mem_cons_of_mem it hm)
    rcases ih (mapUpdate m (pageOf it) (push it)) hrest with ⟨m', hm', hkeys, hlook⟩
    refine ⟨m', ?_, ?_, ?_⟩
    · show foldOpt (fun m2 it2 => fillStep m2 (pageOf it2) (push it2)) m (it :: rest) = some m'
      simp only [foldOpt, hstep]
      exact hm'
    · intro q
      rw [hkeys q, hasKey_mapUpdate]
    · intro p
      rw [hlook p, mapLookup_mapUpdate]
      by_cases hp : p = pageOf it
      · have hb : (pageOf it == p) = true := by simpa using hp.symm
        rw [if_pos hp]
        simp only [List.filter_cons, hb, if_true, Option.map_map]
        rfl
      · have hb : (pageOf it == p) = false := by
          simp only [beq_eq_false_iff_ne, ne_eq]
          exact fun hh => hp hh.symm
        rw [if_neg hp]
        simp [List.filter_cons, hb]

theorem foldPushTables (ts : List SourceTable) :
    ∀ b : PageBucket,
      ts.foldl (fun b2 t => { b2 with tables := b2.tables ++ [t] }) b
        = { b with tables := b.tables ++ ts } := by
  induction ts with
  | nil => intro b; simp
  | cons t ts ih => intro b; rw [List.foldl_cons, ih]; simp

theorem foldPushEntities (es : List SourceEntity) :
    ∀ b : PageBucket,
      es.foldl (fun b2 e => { b2 with entities := b2.entities ++ [e] }) b
        = { b with entities := b.entities ++ es } := by
  induction es with
  | nil => intro b; simp
  | cons e es ih => intro b; rw [List.foldl_cons, ih]; simp

theorem foldPushExtracted (es : List SourceExtractedEntity) :
    ∀ b : PageBucket,
      es.foldl (fun b2 e => { b2 with extractedEntities := b2.extractedEntities ++ [e] }) b
        = { b with extractedEntities := b.extractedEntities ++ es } := by
  induction es with
  | nil => intro b; simp
  | cons e es ih => intro b; rw [List.foldl_cons, ih]; simp

theorem foldPushOcr (os : List SourceOcr) :
    ∀ b : PageBucket,
      os.foldl (fun b2 o => { b2 with ocrBlocks := b2.ocrBlocks ++ [o] }) b
        = { b with ocrBlocks := b.ocrBlocks ++ os } := by
  induction os with
  | nil => intro b; simp
  | cons o os ih => intro b; rw [List.foldl_cons, ih]; simp

theorem foldPushMarkdown (ms : List SourceMarkdown) :
    ∀ b : PageBucket,
      ms.foldl (fun b2 m2 => { b2 with markdownBlocks := b2.markdownBlocks ++ [m2] }) b
        = { b with markdownBlocks := b.markdownBlocks ++ ms } := by
  induction ms with
  | nil => intro b; simp
  | cons m2 ms ih => intro b; rw [List.foldl_cons, ih]; simp

theorem hasKey_keysMap (l : List Int) (q : Int) :
    hasKey (l.map (fun p => (p, emptyBucket))) q = true ↔ q ∈ l := by
  induction l with
  | nil => simp [hasKey]
  | cons a l ih =>
    unfold hasKey at *
    simp only [List.map_cons, List.any_cons] at *
    constructor
    · intro h
      rcases Bool.or_eq_true_iff.mp h with h2 | h2
      · have : a = q := by simpa using h2
        exact this ▸ List.mem_cons_self a l
      · exact List.mem_cons_of_mem a (ih.mp h2)
    · intro h
      rcases List.mem_cons.mp h with rfl | h2
      · simp
      · rw [ih.mpr h2, Bool.or_true]

theorem mapLookup_keysMap (l : List Int) (q : Int) (h : q ∈ l) :
    mapLookup (l.map (fun p => (p, emptyBucket))) q = some emptyBucket := by
  induction l with
  | nil => simp at h
  | cons a l ih =>
    by_cases ha : a = q
    · have hb : (a == q) = true := by simpa using ha
      simp [mapLookup, List.find?_cons, hb]
    · have hb : (a == q) = false := by simpa using ha
      have h2 : q ∈ l := by
        rcases List.mem_cons.mp h with rfl | h3
        · exact absurd rfl ha
        · exact h3
      simpa [mapLookup, List.find?_cons, hb] using ih h2

theorem hasKey_initialPageMap (st : CompilerState) (q : Int) :
    hasKey (initialPageMap st) q = true ↔ q ∈ collectPageNumbers st := by
  unfold initialPageMap
  rw [hasKey_keysMap]
  exact mem_dedupFirst _ q

theorem fillPageMap_char (st : CompilerState) :
    ∃ m, fillPageMap st = some m
      ∧ ∀ p, p ∈ collectPageNumbers st → mapLookup m p = some (bucketOf st p) := by
  have hmem : ∀ q, q ∈ collectPageNumbers st →
      hasKey (initialPageMap st) q = true :=
    fun q hq => (hasKey_initialPageMap st q).mpr hq
  have h1 : ∀ t ∈ st.tables, hasKey (initialPageMap st) t.page_number = true := by
    intro t ht
    exact hmem _ (by
      unfold collectPageNumbers
      simp only [List.mem_append]
      exact Or.inl (Or.inl (Or.inl (Or.inl (List.mem_map_of_mem _ ht)))))
  rcases fillLayer_some (fun t => t.page_number)
    (fun t b => { b with tables := b.tables ++ [t] }) st.tables
    (initialPageMap st) h1 with ⟨m1, hm1, hk1, hl1⟩
  have h2 : ∀ e ∈ st.entities, hasKey m1 e.page_number = true := by
    intro e he
    rw [hk1]
    exact hmem _ (by
      unfold collectPageNumbers
      simp only [List.mem_append]
      exact Or.inl (Or.inl (Or.inl (Or.inr (List.mem_map_of_mem _ he)))))
  rcases fillLayer_some (fun e => e.page_number)
    (fun e b => { b with entities := b.entities ++ [e] }) st.entities
    m1 h2 with ⟨m2, hm2, hk2, hl2⟩
  have h3 : ∀ e ∈ st.extractedEntities, hasKey m2 e.page = true := by
    intro e he
    rw [hk2, hk1]
    exact hmem _ (by
      unfold collectPageNumbers
      simp only [List.mem_append]
      exact Or.inl (Or.inl (Or.inr (List.mem_map_of_mem _ he))))
  rcases fillLayer_some (fun e => e.page)
    (fun e b => { b with extractedEntities := b.extractedEntities ++ [e] })
    st.extractedEntities m2 h3 with ⟨m3, hm3, hk3, hl3⟩
  have h4 : ∀ o ∈ st.ocrBlocks, hasKey m3 o.page = true := by
    intro o ho
    rw [hk3, hk2, hk1]
    exact hmem _ (by
      unfold collectPageNumbers
      simp only [List.mem_append]
      exact Or.inl (Or.inr (List.mem_map_of_mem _ ho)))
  rcases fillLayer_some (fun o => o.page)
    (fun o b => { b with ocrBlocks := b.ocrBlocks ++ [o] })
    st.ocrBlocks m3 h4 with ⟨m4, hm4, hk4, hl4⟩
  have h5 : ∀ md ∈ st.markdownBlocks, hasKey m4 md.page = true := by
    intro md hmd
    rw [hk4, hk3, hk2, hk1]
    exact hmem _ (by
      unfold collectPageNumbers
      simp only [List.mem_append]
      exact Or.inr (List.mem_map_of_mem _ hmd))
  rcases fillLayer_some (fun md => md.page)
    (fun md b => { b with markdownBlocks := b.markdownBlocks ++ [md] })
    st.markdownBlocks m4 h5 with ⟨m5, hm5, hk5, hl5⟩
  refine ⟨m5, ?_, ?_⟩
  · unfold fillPageMap
    dsimp only
    rw [hm1]
    simp only [Option.bind_eq_bind, Option.some_bind]
    rw [hm2]
    simp only [Option.bind_eq_bind, Option.some_bind]
    rw [hm3]
    simp only [Option.bind_eq_bind, Option.some_bind]
    rw [hm4]
    simp only [Option.bind_eq_bind, Option.some_bind]
    exact hm5
  · intro p hp
    rw [hl5 p, hl4 p, hl3 p, hl2 p, hl1 p]
    rw [show initialPageMap st = (dedupFirst (collectPageNumbers st)).map
      (fun p => (p, emptyBucket)) from rfl]
    rw [mapLookup_keysMap _ p ((mem_dedupFirst _ p).mpr hp)]
    simp [foldPushTables, foldPushEntities, foldPushExtracted, foldPushOcr,
      foldPushMarkdown, emptyBucket, bucketOf]

theorem mapOpt_some {α β : Type} {f : α → Option β} {l : List α}
    (h : ∀ a ∈ l, (f a).isSome = true) : ∃ l2, mapOpt f l = some l2 := by
  induction l with
  | nil => exact ⟨[], rfl⟩
  | cons a as ih =>
    rcases Option.isSome_iff_exists.mp (h a (List.mem_cons_self a as)) with ⟨b, hb⟩
    rcases ih (fun x hx => h x (List.mem_cons_of_mem a hx)) with ⟨bs, hbs⟩
    exact ⟨b :: bs, by simp [mapOpt, hb, hbs]⟩

theorem mapOpt_forall₂ {α β : Type} {f : α → Option β} :
    ∀ {l : List α} {l2 : List β}, mapOpt f l = some l2 →
      List.Forall₂ (fun a b => f a = some b) l l2 := by
  intro l
  induction l with
  | nil =>
    intro l2 h
    simp only [mapOpt, Option.some.injEq] at h
    rw [← h]
    exact List.Forall₂.nil
  | cons a as ih =>
    intro l2 h
    simp only [mapOpt] at h
    rcases hfa : f a with _ | b
    · rw [hfa] at h; simp at h
    · rcases hrest : mapOpt f as with _ | bs
      · rw [hfa, hrest] at h; simp at h
      · rw [hfa, hrest] at h
        simp only [Option.some.injEq] at h
        rw [← h]
        exact List.Forall₂.cons hfa (ih hrest)

theorem forall₂_mem_right {α β : Type} {Q : α → β → Prop} :
    ∀ {l : List α} {l2 : List β}, List.Forall₂ Q l l2 → ∀ b ∈ l2, ∃ a ∈ l, Q a b := by
  intro l l2 h
  induction h with
  | nil => intro b hb; simp at hb
  | cons hq _ ih =>
    intro b hb
    rcases List.mem_cons.mp hb with rfl | hb2
    · exact ⟨_, List.mem_cons_self _ _, hq⟩
    · rcases ih b hb2 with ⟨a, ha, hqa⟩
      exact ⟨a, List.mem_cons_of_mem _ ha, hqa⟩

theorem forall₂_imp_mem {α β : Type} {Q Q2 : α → β → Prop} :
    ∀ {l : List α} {l2 : List β}, List.Forall₂ Q l l2 →
      (∀ a ∈ l, ∀ b, Q a b → Q2 a b) → List.Forall₂ Q2 l l2 := by
  intro l l2 h
  induction h with
  | nil => intro _; exact List.Forall₂.nil
  | cons hq hf ih =>
    intro himp
    refine List.Forall₂.cons (himp _ (List.mem_cons_self _ _) _ hq) ?_
    exact ih (fun a ha b hb => himp a (List.mem_cons_of_mem _ ha) b hb)

theorem pairwise_transfer {α β : Type} {R : α → α → Prop} {S : β → β → Prop}
    {Q : α → β → Prop} :
    ∀ {l : List α} {l2 : List β}, List.Forall₂ Q l l2 → l.Pairwise R →
      (∀ a b a2 b2, Q a a2 → Q b b2 → R a b → S a2 b2) → l2.Pairwise S := by
  intro l l2 h
  induction h with
  | nil => intro _ _; exact List.Pairwise.nil
  | cons hq hf ih =>
    intro hp himp
    rcases List.pairwise_cons.mp hp with ⟨hhead, htail⟩
    refine List.pairwise_cons.mpr ⟨?_, ih htail himp⟩
    intro b2 hb2
    rcases forall₂_mem_right hf b2 hb2 with ⟨b, hb, hqb⟩
    exact himp _ _ _ _ hq hqb (hhead b hb)

theorem compile_char (st : CompilerState) (now : Int) :
    ∃ doc, DocCompiler.compile st now = some doc
      ∧ List.Forall₂
          (fun p pg => pg = DocCompiler.buildPage st.options p (bucketOf st p))
          (stableSortBy (fun a b => decide (a < b)) (dedupFirst (collectPageNumbers st)))
          doc.pages := by
  rcases fillPageMap_char st with ⟨m, hm, hlook⟩
  have hkeymem : ∀ p ∈ stableSortBy (fun a b => decide (a < b))
      (dedupFirst (collectPageNumbers st)), p ∈ collectPageNumbers st := by
    intro p hp
    have h2 := (stableSortBy_perm (fun a b => decide (a < b))
      (dedupFirst (collectPageNumbers st))).mem_iff.mp hp
    exact (mem_dedupFirst _ p).mp h2
  have hf : ∀ p ∈ stableSortBy (fun a b => decide (a < b))
      (dedupFirst (collectPageNumbers st)),
      ((mapLookup m p).map (fun b => DocCompiler.buildPage st.options p b)).isSome = true := by
    intro p hp
    rw [hlook p (hkeymem p hp)]
    rfl
  rcases mapOpt_some hf with ⟨pages, hpages⟩
  have hforall := mapOpt_forall₂ hpages
  have hforall2 : List.Forall₂
      (fun p pg => pg = DocCompiler.buildPage st.options p (bucketOf st p))
      (stableSortBy (fun a b => decide (a < b)) (dedupFirst (collectPageNumbers st)))
      pages := by
    refine forall₂_imp_mem hforall ?_
    intro p hp pg hq
    rw [hlook p (hkeymem p hp)] at hq
    simp only [Option.map] at hq
    exact (Option.some.injEq _ _ ▸ hq.symm)
  refine ⟨{ id := st.options.documentId
            version := st.version
            pages := pages
            meta :=
              { fileName := st.options.fileName
                documentType := st.options.documentType
                totalPages := pages.length
                totalEntities := pages.foldl (fun acc pg => acc + pg.meta.totalEntities) 0
                verifiedCount := pages.foldl (fun acc pg => acc + pg.meta.verifiedCount) 0
                flaggedCount := pages.foldl (fun acc pg => acc + pg.meta.flaggedCount) 0
                pendingCount := pages.foldl (fun acc pg => acc + pg.meta.pendingCount) 0
                verificationScore :=
                  if pages.foldl (fun acc pg => acc + pg.meta.totalEntities) 0 > 0
                  then ((pages.foldl (fun acc pg => acc + pg.meta.verifiedCount) 0 : ℕ) : ℚ)
                    / ((pages.foldl (fun acc pg => acc + pg.meta.totalEntities) 0 : ℕ) : ℚ)
                  else 0
                createdAt := now
                lastModified := now } }, ?_, hforall2⟩
  unfold DocCompiler.compile
  dsimp only
  rw [hm]
  simp only [Option.bind_eq_bind, Option.some_bind]
  rw [hpages]
  simp only [Option.bind_eq_bind, Option.some_bind]

/-! ## Lemmas about table decomposition -/

theorem parseRowsGo_header (lines : List (List Char)) :
    ∀ acc : List MdRow,
      (∀ i r, acc[i]? = some r → r.isHeader = decide (i = 0)) →
      ∀ i r, (parseRowsGo lines acc)[i]? = some r → r.isHeader = decide (i = 0) := by
  induction lines with
  | nil => intro acc hacc; exact hacc
  | cons line rest ih =>
    intro acc hacc
    have happend : ∀ cells : List String,
        (∀ i r, (acc ++ [(⟨cells, acc.isEmpty⟩ : MdRow)])[i]? = some r →
          r.isHeader = decide (i = 0)) := by
      intro cells i r hr
      rw [List.getElem?_append] at hr
      by_cases hi : i < acc.length
      · rw [if_pos hi] at hr
        exact hacc i r hr
      · rw [if_neg hi] at hr
        rcases hj : i - acc.length with _ | j
        · rw [hj] at hr
          simp only [List.getElem?_cons_zero, Option.some.injEq] at hr
          have hieq : i = acc.length := by omega
          rw [← hr]
          show acc.isEmpty = decide (i = 0)
          rw [hieq]
          cases acc with
          | nil => simp
          | cons a as => simp
        · rw [hj] at hr
          simp at hr
    intro i r
    unfold parseRowsGo
    by_cases h1 : sepRowTest (jsTrimList line)
    · rw [if_pos h1]
      exact ih acc hacc i r
    · rw [if_neg h1]
      by_cases h2 : (listStartsWith (jsTrimList line) ['|']
          || listIncludes (jsTrimList line) ['|']) = true
      · rw [if_pos h2]
        by_cases h3 : (dropFirstLast ((splitOnChar '|' (jsTrimList line)).map
            (fun c => String.mk (jsTrimList c)))).isEmpty = true
        · rw [if_pos h3]
          exact ih acc hacc i r
        · rw [if_neg h3]
          exact ih _ (happend _) i r
      · rw [if_neg h2]
        exact ih acc hacc i r

theorem parseMarkdownTable_header (markdown : String) :
    ∀ i r, (parseMarkdownTable markdown).rows[i]? = some r →
      r.isHeader = decide (i = 0) := by
  intro i r hr
  exact parseRowsGo_header _ [] (fun i r h => by simp at h) i r hr

theorem foldl_max_init_le {α : Type} (f : α → ℕ) (l : List α) :
    ∀ init : ℕ, init ≤ l.foldl (fun m x => max m (f x)) init := by
  induction l with
  | nil => intro init; exact le_refl _
  | cons a l ih =>
    intro init
    exact le_trans (le_max_left init (f a)) (ih (max init (f a)))

theorem mem_le_foldl_max {α : Type} (f : α → ℕ) (l : List α) :
    ∀ init : ℕ, ∀ x ∈ l, f x ≤ l.foldl (fun m x => max m (f x)) init := by
  induction l with
  | nil => intro init x hx; simp at hx
  | cons a l ih =>
    intro init x hx
    rcases List.mem_cons.mp hx with rfl | hx2
    · exact le_trans (le_max_right init (f x)) (foldl_max_init_le f l _)
    · exact ih (max init (f a)) x hx2

theorem length_filterMap_if {α β : Type} (p : α → Bool) (bld : ℕ × α → β) :
    ∀ l : List (ℕ × α),
      (l.filterMap (fun cc => if p cc.2 then none else some (bld cc))).length
        = l.countP (fun cc => !(p cc.2)) := by
  intro l
  induction l with
  | nil => rfl
  | cons cc l ih =>
    by_cases h : p cc.2
    · simp [List.filterMap_cons, h, List.countP_cons, ih]
    · simp [List.filterMap_cons, h, List.countP_cons, ih]

theorem countP_enumFrom_snd {α : Type} (p : α → Bool) :
    ∀ (l : List α) (n : ℕ),
      (List.enumFrom n l).countP (fun cc => p cc.2) = l.countP p := by
  intro l
  induction l with
  | nil => intro n; rfl
  | cons a l ih =>
    intro n
    rw [List.enumFrom_cons, List.countP_cons, List.countP_cons, ih]

theorem countP_not_add_countP {α : Type} (p : α → Bool) (l : List α) :
    l.countP (fun a => !(p a)) + l.countP p = l.length := by
  induction l with
  | nil => rfl
  | cons a l ih =>
    rw [List.countP_cons, List.countP_cons, List.length_cons]
    by_cases h : p a
    · simp only [h, Bool.not_true, Bool.false_eq_true, if_false, if_true]
      omega
    · simp only [h, Bool.not_false, Bool.false_eq_true, if_false, if_true]
      omega

theorem sum_map_le_mul {α : Type} (f : α → ℕ) (C : ℕ) :
    ∀ l : List α, (∀ x ∈ l, f x ≤ C) → (l.map f).sum ≤ l.length * C := by
  intro l
  induction l with
  | nil => intro _; simp
  | cons a l ih =>
    intro h
    rw [List.map_cons, List.sum_cons, List.length_cons]
    have h1 := h a (List.mem_cons_self a l)
    have h2 := ih (fun x hx => h x (List.mem_cons_of_mem a hx))
    have : (l.length + 1) * C = l.length * C + C := by ring
    omega

/-! ## Lemmas about attribute routing -/

theorem metaLookup_metaSet_self (m : List (String × JsValue)) (k : String) (v : JsValue) :
    metaLookup (metaSet m k v) k = some v := by
  unfold metaSet
  by_cases h : m.any (fun kv => kv.1 == k)
  · rw [if_pos h]
    induction m with
    | nil => simp [hasKey] at h
    | cons kv m ih =>
      by_cases hk : kv.1 == k
      · have hkeq : kv.1 = k := by simpa using hk
        simp [metaLookup, List.find?_cons, hk, hkeq]
      · have h2 : m.any (fun kv => kv.1 == k) = true := by
          simp only [List.any_cons] at h
          rcases Bool.or_eq_true_iff.mp h with h3 | h3
          · exact absurd h3 (by simp [hk])
          · exact h3
        simp only [List.map_cons, if_neg (by simp [hk] : ¬ (kv.1 == k) = true)]
        show metaLookup ((kv.1, kv.2) :: m.map _) k = some v
        simp only [metaLookup, List.find?_cons, hk]
        exact ih h2
  · rw [if_neg h]
    induction m with
    | nil => simp [metaLookup, List.find?_cons]
    | cons kv m ih =>
      have hk : (kv.1 == k) = false := by
        by_contra hc
        have : (kv.1 == k) = true := by
          cases hb : kv.1 == k
          · exact absurd hb hc
          · rfl
        exact h (by simp [List.any_cons, this])
      have h2 : ¬ m.any (fun kv => kv.1 == k) = true := by
        intro hc
        exact h (by simp [List.any_cons, hc, Bool.or_true])
      simp only [List.cons_append, metaLookup, List.find?_cons, hk]
      exact ih h2

theorem metaLookup_metaSet_ne (m : List (String × JsValue)) (k k2 : String)
    (v : JsValue) (hne : k2 ≠ k) :
    metaLookup (metaSet m k v) k2 = metaLookup m k2 := by
  unfold metaSet
  by_cases h : m.any (fun kv => kv.1 == k)
  · rw [if_pos h]
    clear h
    induction m with
    | nil => rfl
    | cons kv m ih =>
      by_cases hk : kv.1 == k
      · have hkeq : kv.1 = k := by simpa using hk
        have hk2 : (kv.1 == k2) = false := by
          simp only [beq_eq_false_iff_ne, ne_eq, hkeq]
          exact fun hc => hne hc.symm
        simp only [List.map_cons, if_pos hk]
        show metaLookup ((kv.1, v) :: m.map _) k2 = _
        simp only [metaLookup, List.find?_cons, hk2]
        exact ih
      · simp only [List.map_cons, if_neg (by simp [hk] : ¬ (kv.1 == k) = true)]
        show metaLookup (kv :: m.map _) k2 = _
        by_cases hk2 : kv.1 == k2
        · simp [metaLookup, List.find?_cons, hk2]
        · simp only [metaLookup, List.find?_cons, hk2]
          exact ih
  · rw [if_neg h]
    induction m with
    | nil =>
      simp only [List.nil_append]
      have : (k == k2) = false := by
        simp only [beq_eq_false_iff_ne, ne_eq]
        exact fun hc => hne hc.symm
      simp [metaLookup, List.find?_cons, this]
    | cons kv m ih =>
      have h2 : ¬ m.any (fun kv => kv.1 == k) = true := by
        intro hc
        exact h (by simp [List.any_cons, hc, Bool.or_true])
      by_cases hk2 : kv.1 == k2
      · simp [metaLookup, List.find?_cons, hk2]
      · simp only [List.cons_append, metaLookup, List.find?_cons, hk2]
        exact ih h2

theorem metaLookup_metaErase_ne (m : List (String × JsValue)) (k k2 : String)
    (hne : k2 ≠ k) :
    metaLookup (metaErase m k) k2 = metaLookup m k2 := by
  induction m with
  | nil => rfl
  | cons kv m ih =>
    unfold metaErase at *
    by_cases hk : kv.1 == k
    · have hkeq : kv.1 = k := by simpa using hk
      have : (kv.1 != k) = false := by simp [hkeq]
      have hk2 : (kv.1 == k2) = false := by
        simp only [beq_eq_false_iff_ne, ne_eq, hkeq]
        exact fun hc => hne hc.symm
      simp only [List.filter_cons, this, Bool.false_eq_true, if_false]
      rw [ih]
      simp [metaLookup, List.find?_cons, hk2]
    · have hkne : ¬ kv.1 = k := by simpa using hk
      have : (kv.1 != k) = true := by simp [hkne]
      simp only [List.filter_cons, this, if_true]
      by_cases hk2 : kv.1 == k2
      · simp [metaLookup, List.find?_cons, hk2]
      · simp only [metaLookup, List.find?_cons, hk2]
        exact ih

theorem setEntityAttr_route_meta (e : VirtualEntity) (k : String) (v : JsValue)
    (h1 : metaFieldsList.contains k = true) :
    setEntityAttr e k v = { e with meta := metaSet e.meta k v } := by
  unfold setEntityAttr
  rw [if_pos h1]

theorem setEntityAttr_route_text (e : VirtualEntity) (v : JsValue) :
    setEntityAttr e "text" v = { e with text := v } := by
  unfold setEntityAttr
  rw [if_neg (by decide), if_pos (by decide)]

theorem setEntityAttr_route_value (e : VirtualEntity) (v : JsValue) :
    setEntityAttr e "value" v = { e with value := v } := by
  unfold setEntityAttr
  rw [if_neg (by decide), if_neg (by decide), if_pos (by decide)]

theorem setEntityAttr_route_type (e : VirtualEntity) (v : JsValue) :
    setEntityAttr e "type" v = { e with type := v } := by
  unfold setEntityAttr
  rw [if_neg (by decide), if_neg (by decide), if_neg (by decide), if_pos (by decide)]

theorem setEntityAttr_route_ext (e : VirtualEntity) (k : String) (v : JsValue)
    (h1 : metaFieldsList.contains k = false) (h2 : (k == "text") = false)
    (h3 : (k == "value") = false) (h4 : (k == "type") = false) :
    setEntityAttr e k v = { e with meta := metaSet e.meta k v } := by
  unfold setEntityAttr
  rw [if_neg (by rw [h1]; simp), if_neg (by rw [h2]; simp), if_neg (by rw [h3]; simp),
    if_neg (by rw [h4]; simp)]

theorem setEntityAttr_id (e : VirtualEntity) (k : String) (v : JsValue) :
    (setEntityAttr e k v).id = e.id ∧ (setEntityAttr e k v).pageIndex = e.pageIndex := by
  unfold setEntityAttr
  split_ifs <;> exact ⟨rfl, rfl⟩

theorem getEntityAttr_meta_update (e : VirtualEntity) (m2 : List (String × JsValue))
    (k2 : String) (h : metaLookup m2 k2 = metaLookup e.meta k2) :
    QueryResult.getEntityAttr { e with meta := m2 } k2 = QueryResult.getEntityAttr e k2 := by
  unfold QueryResult.getEntityAttr getEntityValue
  dsimp only
  rw [h]

theorem getEntityAttr_text_update (e : VirtualEntity) (v : JsValue) (k2 : String)
    (hne : k2 ≠ "text") :
    QueryResult.getEntityAttr { e with text := v } k2 = QueryResult.getEntityAttr e k2 := by
  unfold QueryResult.getEntityAttr getEntityValue
  dsimp only
  cases hml : metaLookup e.meta k2 with
  | some w => rfl
  | none =>
    have htxt : (k2 == "text") = false := by simpa using hne
    simp only [htxt, Bool.false_eq_true, if_false]

theorem getEntityAttr_value_update (e : VirtualEntity) (v : JsValue) (k2 : String)
    (hne : k2 ≠ "value") :
    QueryResult.getEntityAttr { e with value := v } k2 = QueryResult.getEntityAttr e k2 := by
  unfold QueryResult.getEntityAttr getEntityValue
  dsimp only
  cases hml : metaLookup e.meta k2 with
  | some w => rfl
  | none =>
    have hval : (k2 == "value") = false := by simpa using hne
    simp only [hval, Bool.false_eq_true, if_false]

theorem getEntityAttr_type_update (e : VirtualEntity) (v : JsValue) (k2 : String)
    (hne : k2 ≠ "type") :
    QueryResult.getEntityAttr { e with type := v } k2 = QueryResult.getEntityAttr e k2 := by
  unfold QueryResult.getEntityAttr getEntityValue
  dsimp only
  cases hml : metaLookup e.meta k2 with
  | some w => rfl
  | none =>
    have hty : (k2 == "type") = false := by simpa using hne
    simp only [hty, Bool.false_eq_true, if_false]

theorem getEntityAttr_setEntityAttr_ne (e : VirtualEntity) (k k2 : String)
    (v : JsValue) (hne : k2 ≠ k) :
    QueryResult.getEntityAttr (setEntityAttr e k v) k2
      = QueryResult.getEntityAttr e k2 := by
  by_cases h1 : metaFieldsList.contains k
  · rw [setEntityAttr_route_meta e k v h1]
    exact getEntityAttr_meta_update e _ k2 (metaLookup_metaSet_ne _ _ _ _ hne)
  · by_cases h2 : k = "text"
    · subst h2
      rw [setEntityAttr_route_text]
      exact getEntityAttr_text_update e v k2 hne
    · by_cases h3 : k = "value"
      · subst h3
        rw [setEntityAttr_route_value]
        exact getEntityAttr_value_update e v k2 hne
      · by_cases h4 : k = "type"
        · subst h4
          rw [setEntityAttr_route_type]
          exact getEntityAttr_type_update e v k2 hne
        · rw [setEntityAttr_route_ext e k v (by simpa using h1) (by simpa using h2)
            (by simpa using h3) (by simpa using h4)]
          exact getEntityAttr_meta_update e _ k2 (metaLookup_metaSet_ne _ _ _ _ hne)

theorem getEntityAttr_meta_lookup_some (e : VirtualEntity) (k : String) (w : JsValue)
    (h : metaLookup e.meta k = some w) : QueryResult.getEntityAttr e k = w := by
  unfold QueryResult.getEntityAttr getEntityValue
  rw [h]

theorem getEntityAttr_setEntityAttr_self (e : VirtualEntity) (k : String) (v : JsValue)
    (hmut : k = "text" ∨ k = "value" ∨ k = "type" → metaLookup e.meta k = none) :
    QueryResult.getEntityAttr (setEntityAttr e k v) k = v := by
  by_cases h1 : metaFieldsList.contains k
  · rw [setEntityAttr_route_meta e k v h1]
    exact getEntityAttr_meta_lookup_some _ k v (metaLookup_metaSet_self e.meta k v)
  · by_cases h2 : k = "text"
    · subst h2
      rw [setEntityAttr_route_text]
      unfold QueryResult.getEntityAttr getEntityValue
      dsimp only
      rw [hmut (Or.inl rfl)]
      simp
    · by_cases h3 : k = "value"
      · subst h3
        rw [setEntityAttr_route_value]
        unfold QueryResult.getEntityAttr getEntityValue
        dsimp only
        rw [hmut (Or.inr (Or.inl rfl))]
        simp
      · by_cases h4 : k = "type"
        · subst h4
          rw [setEntityAttr_route_type]
          unfold QueryResult.getEntityAttr getEntityValue
          dsimp only
          rw [hmut (Or.inr (Or.inr rfl))]
          simp
        · rw [setEntityAttr_route_ext e k v (by simpa using h1) (by simpa using h2)
            (by simpa using h3) (by simpa using h4)]
          exact getEntityAttr_meta_lookup_some _ k v (metaLookup_metaSet_self e.meta k v)

theorem setEntityAttr_mut_none (e : VirtualEntity) (k : String) (v : JsValue)
    (k2 : String) (h2 : k2 = "text" ∨ k2 = "value" ∨ k2 = "type")
    (hnone : metaLookup e.meta k2 = none) :
    metaLookup (setEntityAttr e k v).meta k2 = none := by
  by_cases h1 : metaFieldsList.contains k
  · rw [setEntityAttr_route_meta e k v h1]
    have hne : k2 ≠ k := by
      intro hc
      subst hc
      rcases h2 with rfl | rfl | rfl <;> simp_all [metaFieldsList]
    show metaLookup (metaSet e.meta k v) k2 = none
    rw [metaLookup_metaSet_ne _ _ _ _ hne]
    exact hnone
  · by_cases ht : k = "text"
    · subst ht; rw [setEntityAttr_route_text]; exact hnone
    · by_cases hv : k = "value"
      · subst hv; rw [setEntityAttr_route_value]; exact hnone
      · by_cases hty : k = "type"
        · subst hty; rw [setEntityAttr_route_type]; exact hnone
        · rw [setEntityAttr_route_ext e k v (by simpa using h1) (by simpa using ht)
            (by simpa using hv) (by simpa using hty)]
          have hne : k2 ≠ k := by
            intro hc
            subst hc
            rcases h2 with rfl | rfl | rfl <;> simp_all
          show metaLookup (metaSet e.meta k v) k2 = none
          rw [metaLookup_metaSet_ne _ _ _ _ hne]
          exact hnone

theorem jsStrictEq_eq_of_true (a b : JsValue) (h : jsStrictEq a b = true) : a = b := by
  cases a <;> cases b <;> simp_all [jsStrictEq]

theorem applyAttrs_foldl_acc (now : Int) (attrs : List (String × JsValue)) :
    ∀ (e : VirtualEntity) (cs : List EntityChange),
      attrs.foldl
        (fun acc kv =>
          if jsStrictEq (QueryResult.getEntityAttr acc.1 kv.1) kv.2 then acc
          else
            (setEntityAttr acc.1 kv.1 kv.2,
             acc.2 ++ [{ entityId := acc.1.id, pageIndex := acc.1.pageIndex,
                         field := kv.1,
                         oldValue := QueryResult.getEntityAttr acc.1 kv.1,
                         newValue := kv.2, timestamp := now }]))
        (e, cs)
      = ((applyAttrsEntity attrs now e).1, cs ++ (applyAttrsEntity attrs now e).2) := by
  induction attrs with
  | nil =>
    intro e cs
    simp [applyAttrsEntity]
  | cons kv rest ih =>
    intro e cs
    unfold applyAttrsEntity
    rw [List.foldl_cons, List.foldl_cons]
    dsimp only
    by_cases heq : jsStrictEq (QueryResult.getEntityAttr e kv.1) kv.2
    · rw [if_pos heq, if_pos heq]
      exact ih e cs
    · rw [if_neg heq, if_neg heq]
      rw [ih, ih]
      simp

theorem applyAttrsEntity_cons (now : Int) (kv : String × JsValue)
    (rest : List (String × JsValue)) (e : VirtualEntity) :
    applyAttrsEntity (kv :: rest) now e
      = if jsStrictEq (QueryResult.getEntityAttr e kv.1) kv.2
        then applyAttrsEntity rest now e
        else ((applyAttrsEntity rest now (setEntityAttr e kv.1 kv.2)).1,
              { entityId := e.id, pageIndex := e.pageIndex, field := kv.1,
                oldValue := QueryResult.getEntityAttr e kv.1, newValue := kv.2,
                timestamp := now }
                :: (applyAttrsEntity rest now (setEntityAttr e kv.1 kv.2)).2) := by
  unfold applyAttrsEntity
  rw [List.foldl_cons]
  dsimp only
  by_cases heq : jsStrictEq (QueryResult.getEntityAttr e kv.1) kv.2
  · rw [if_pos heq, if_pos heq]
  · rw [if_neg heq, if_neg heq]
    rw [applyAttrs_foldl_acc now rest]
    simp [applyAttrsEntity]

theorem applyAttrs_fst_id (now : Int) (attrs : List (String × JsValue)) :
    ∀ e : VirtualEntity, (applyAttrsEntity attrs now e).1.id = e.id
      ∧ (applyAttrsEntity attrs now e).1.pageIndex = e.pageIndex := by
  induction attrs with
  | nil => intro e; exact ⟨rfl, rfl⟩
  | cons kv rest ih =>
    intro e
    rw [applyAttrsEntity_cons]
    by_cases heq : jsStrictEq (QueryResult.getEntityAttr e kv.1) kv.2
    · rw [if_pos heq]
      exact ih e
    · rw [if_neg heq]
      rcases ih (setEntityAttr e kv.1 kv.2) with ⟨h1, h2⟩
      rcases setEntityAttr_id e kv.1 kv.2 with ⟨h3, h4⟩
      exact ⟨by rw [h1, h3], by rw [h2, h4]⟩

theorem applyAttrs_preserve (now : Int) (attrs : List (String × JsValue)) :
    ∀ (e : VirtualEntity) (k : String), (∀ kv ∈ attrs, kv.1 ≠ k) →
      QueryResult.getEntityAttr (applyAttrsEntity attrs now e).1 k
        = QueryResult.getEntityAttr e k := by
  induction attrs with
  | nil => intro e k _; rfl
  | cons kv rest ih =>
    intro e k hk
    rw [applyAttrsEntity_cons]
    have hhead : kv.1 ≠ k := hk kv (List.mem_cons_self kv rest)
    have hrest : ∀ kv2 ∈ rest, kv2.1 ≠ k :=
      fun kv2 h2 => hk kv2 (List.mem_cons_of_mem kv h2)
    by_cases heq : jsStrictEq (QueryResult.getEntityAttr e kv.1) kv.2
    · rw [if_pos heq]
      exact ih e k hrest
    · rw [if_neg heq]
      rw [ih (setEntityAttr e kv.1 kv.2) k hrest]
      exact getEntityAttr_setEntityAttr_ne e kv.1 k kv.2 (fun hc => hhead hc.symm)

theorem applyAttrs_mut_none (now : Int) (attrs : List (String × JsValue)) :
    ∀ e : VirtualEntity,
      (∀ k, (k = "text" ∨ k = "value" ∨ k = "type") → metaLookup e.meta k = none) →
      ∀ k, (k = "text" ∨ k = "value" ∨ k = "type") →
        metaLookup (applyAttrsEntity attrs now e).1.meta k = none := by
  induction attrs with
  | nil => intro e he k hkm; exact he k hkm
  | cons kv rest ih =>
    intro e he k hkm
    rw [applyAttrsEntity_cons]
    by_cases heq : jsStrictEq (QueryResult.getEntityAttr e kv.1) kv.2
    · rw [if_pos heq]
      exact ih e he k hkm
    · rw [if_neg heq]
      exact ih (setEntityAttr e kv.1 kv.2)
        (fun k2 hk2 => setEntityAttr_mut_none e kv.1 kv.2 k2 hk2 (he k2 hk2)) k hkm

theorem applyAttrsEntity_spec (now : Int) :
    ∀ (attrs : List (String × JsValue)) (e : VirtualEntity),
      (attrs.map Prod.fst).Nodup →
      (∀ k, (k = "text" ∨ k = "value" ∨ k = "type") → metaLookup e.meta k = none) →
      (applyAttrsEntity attrs now e).2
        = (attrs.filter
            (fun kv => !(jsStrictEq (QueryResult.getEntityAttr e kv.1) kv.2))).map
            (fun kv => { entityId := e.id, pageIndex := e.pageIndex, field := kv.1,
                         oldValue := QueryResult.getEntityAttr e kv.1, newValue := kv.2,
                         timestamp := now })
      ∧ (∀ kv ∈ attrs,
          QueryResult.getEntityAttr (applyAttrsEntity attrs now e).1 kv.1 = kv.2) := by
  intro attrs
  induction attrs with
  | nil =>
    intro e _ _
    exact ⟨rfl, fun kv h => absurd h (List.not_mem_nil kv)⟩
  | cons kv rest ih =>
    intro e hnd hmut
    have hnd2 : (rest.map Prod.fst).Nodup := (List.nodup_cons.mp hnd).2
    have hnotin : kv.1 ∉ rest.map Prod.fst := (List.nodup_cons.mp hnd).1
    have hrestne : ∀ kv2 ∈ rest, kv2.1 ≠ kv.1 := by
      intro kv2 h2 hc
      exact hnotin (hc ▸ List.mem_map_of_mem Prod.fst h2)
    rw [applyAttrsEntity_cons]
    by_cases heq : jsStrictEq (QueryResult.getEntityAttr e kv.1) kv.2
    · rw [if_pos heq]
      rcases ih e hnd2 hmut with ⟨hlog, hpost⟩
      constructor
      · rw [hlog]
        have hpred : (!(jsStrictEq (QueryResult.getEntityAttr e kv.1) kv.2)) = false := by
          rw [heq]; rfl
        rw [List.filter_cons]
        rw [hpred]
        simp
      · intro kv2 h2
        rcases List.mem_cons.mp h2 with rfl | h3
        · have hpres : QueryResult.getEntityAttr (applyAttrsEntity rest now e).1 kv2.1
              = QueryResult.getEntityAttr e kv2.1 :=
            applyAttrs_preserve now rest e kv2.1 hrestne
          rw [hpres]
          exact jsStrictEq_eq_of_true _ _ heq
        · exact hpost kv2 h3
    · rw [if_neg heq]
      have hmut2 : ∀ k, (k = "text" ∨ k = "value" ∨ k = "type") →
          metaLookup (setEntityAttr e kv.1 kv.2).meta k = none :=
        fun k hk => setEntityAttr_mut_none e kv.1 kv.2 k hk (hmut k hk)
      rcases ih (setEntityAttr e kv.1 kv.2) hnd2 hmut2 with ⟨hlog, hpost⟩
      constructor
      · show _ :: (applyAttrsEntity rest now (setEntityAttr e kv.1 kv.2)).2 = _
        rw [hlog]
        have hpred : (!(jsStrictEq (QueryResult.getEntityAttr e kv.1) kv.2)) = true := by
          simp only [Bool.not_eq_true] at heq
          rw [heq]
          rfl
        rw [List.filter_cons, hpred]
        simp only [if_true]
        rw [List.map_cons]
        congr 1
        have hfilter : rest.filter (fun kv2 =>
              !(jsStrictEq (QueryResult.getEntityAttr (setEntityAttr e kv.1 kv.2) kv2.1) kv2.2))
            = rest.filter (fun kv2 =>
              !(jsStrictEq (QueryResult.getEntityAttr e kv2.1) kv2.2)) := by
          apply List.filter_congr
          intro kv2 h2
          rw [getEntityAttr_setEntityAttr_ne e kv.1 kv2.1 kv.2 (hrestne kv2 h2)]
        rw [hfilter]
        apply List.map_congr_left
        intro kv2 h2
        have h3 : kv2 ∈ rest := List.mem_of_mem_filter h2
        rcases setEntityAttr_id e kv.1 kv.2 with ⟨hid, hpi⟩
        rw [getEntityAttr_setEntityAttr_ne e kv.1 kv2.1 kv.2 (hrestne kv2 h3), hid, hpi]
      · intro kv2 h2
        rcases List.mem_cons.mp h2 with rfl | h3
        · show QueryResult.getEntityAttr
            (applyAttrsEntity rest now (setEntityAttr e kv2.1 kv2.2)).1 kv2.1 = kv2.2
          rw [applyAttrs_preserve now rest (setEntityAttr e kv2.1 kv2.2) kv2.1 hrestne]
          exact getEntityAttr_setEntityAttr_self e kv2.1 kv2.2
            (fun hk => hmut kv2.1 hk)
        · exact hpost kv2 h3

theorem any_false_of_metaLookup_none (m : List (String × JsValue)) (k : String)
    (h : metaLookup m k = none) : m.any (fun kv => kv.1 == k) = false := by
  induction m with
  | nil => rfl
  | cons kv m ih =>
    by_cases hk : kv.1 == k
    · exfalso
      simp [metaLookup, List.find?_cons, hk] at h
    · simp only [metaLookup, List.find?_cons, hk] at h
      have hkf : (kv.1 == k) = false := by simpa using hk
      rw [List.any_cons, hkf, ih h]
      rfl

theorem removeAttrEntity_single (k : String) (now : Int) (e : VirtualEntity)
    (hmeta : metaLookup e.meta k = none) :
    removeAttrEntity [k] now e
      = if jsStrictEq (QueryResult.getEntityAttr e k) JsValue.undefined
        then (e, [])
        else (e, [{ entityId := e.id, pageIndex := e.pageIndex, field := k,
                    oldValue := QueryResult.getEntityAttr e k,
                    newValue := JsValue.undefined, timestamp := now }]) := by
  unfold removeAttrEntity
  rw [List.foldl_cons, List.foldl_nil]
  dsimp only
  by_cases h : jsStrictEq (QueryResult.getEntityAttr e k) JsValue.undefined
  · rw [if_pos h, if_pos h]
  · rw [if_neg h, if_neg h]
    rw [if_neg (by rw [any_false_of_metaLookup_none e.meta k hmeta]; simp)]
    simp

/-! ## Substring lemmas for the label hint -/

theorem listStartsWith_iff (p : List Char) :
    ∀ l : List Char, listStartsWith l p = true ↔ ∃ t, l = p ++ t := by
  induction p with
  | nil =>
    intro l
    constructor
    · intro _; exact ⟨l, rfl⟩
    · intro _
      cases l <;> rfl
  | cons c p ih =>
    intro l
    cases l with
    | nil =>
      simp [listStartsWith]
    | cons a l =>
      show (a == c && listStartsWith l p) = true ↔ _
      constructor
      · intro h
        rcases Bool.and_eq_true_iff.mp h with ⟨h1, h2⟩
        have hac : a = c := by simpa using h1
        rcases (ih l).mp h2 with ⟨t, rfl⟩
        exact ⟨t, by rw [hac]; rfl⟩
      · rintro ⟨t, ht⟩
        simp only [List.cons_append, List.cons.injEq] at ht
        rcases ht with ⟨rfl, rfl⟩
        refine Bool.and_eq_true_iff.mpr ⟨by simp, (ih _).mpr ⟨t, rfl⟩⟩

theorem listIncludes_iff (p : List Char) :
    ∀ l : List Char, listIncludes l p = true ↔ ∃ s t, l = s ++ (p ++ t) := by
  intro l
  induction l with
  | nil =>
    simp only [listIncludes]
    constructor
    · intro h
      have : p = [] := by
        cases p with
        | nil => rfl
        | cons c q => simp at h
      exact ⟨[], [], by simp [this]⟩
    · rintro ⟨s, t, hst⟩
      have : s = [] ∧ p = [] ∧ t = [] := by
        rcases List.append_eq_nil.mp hst.symm with ⟨h1, h2⟩
        rcases List.append_eq_nil.mp h2 with ⟨h3, h4⟩
        exact ⟨h1, h3, h4⟩
      simp [this.2.1]
  | cons a l ih =>
    show (listStartsWith (a :: l) p || listIncludes l p) = true ↔ _
    constructor
    · intro h
      rcases Bool.or_eq_true_iff.mp h with h1 | h1
      · rcases (listStartsWith_iff p (a :: l)).mp h1 with ⟨t, ht⟩
        exact ⟨[], t, by simp [ht]⟩
      · rcases ih.mp h1 with ⟨s, t, hst⟩
        exact ⟨a :: s, t, by simp [hst]⟩
    · rintro ⟨s, t, hst⟩
      cases s with
      | nil =>
        apply Bool.or_eq_true_iff.mpr
        exact Or.inl ((listStartsWith_iff p (a :: l)).mpr ⟨t, by simpa using hst⟩)
      | cons b s =>
        apply Bool.or_eq_true_iff.mpr
        right
        simp only [List.cons_append, List.cons.injEq] at hst
        exact ih.mpr ⟨s, t, hst.2⟩

theorem listIncludes_trans (l a b : List Char)
    (h1 : listIncludes l a = true) (h2 : listIncludes a b = true) :
    listIncludes l b = true := by
  rcases (listIncludes_iff a l).mp h1 with ⟨s, t, rfl⟩
  rcases (listIncludes_iff b a).mp h2 with ⟨s2, t2, rfl⟩
  exact (listIncludes_iff b _).mpr ⟨s ++ s2, t2 ++ t, by simp⟩

/-! ## Claim theorems -/

/-- C3 (corrected): detectEntityType applies the label hint first — a
case-insensitive substring match on "total" overrides everything, and a
label containing "subtotal" also contains "total", so the subtotal branch
is unreachable and such labels yield "total" (not "subtotal" as claimed);
a label matching "date" but not "total" yields "date"; otherwise the
trimmed text is classified in the order currency, percentage, date,
number, then label for short single-line text, else text; and
detectEntityType classifies the three stated examples and the labelled
Total cell as stated. -/
theorem claim_C3 :
    (∀ text lab : String, ¬ lab = "" →
      listIncludes (jsLowerList lab.data) "total".data = true →
      detectEntityType text (some lab) = "total")
    ∧ (∀ lab : String,
      listIncludes (jsLowerList lab.data) "subtotal".data = true →
      listIncludes (jsLowerList lab.data) "total".data = true)
    ∧ (∀ text lab : String, ¬ lab = "" →
      listIncludes (jsLowerList lab.data) "total".data = false →
      listIncludes (jsLowerList lab.data) "date".data = true →
      detectEntityType text (some lab) = "date")
    ∧ (∀ text lab : String, ¬ lab = "" →
      listIncludes (jsLowerList lab.data) "total".data = false →
      listIncludes (jsLowerList lab.data) "date".data = false →
      detectEntityType text (some lab) = detectEntityType text none)
    ∧ (∀ text : String, currencyTest (jsTrimList text.data) = true →
      detectEntityType text none = "currency")
    ∧ (∀ text : String, currencyTest (jsTrimList text.data) = false →
      percentageTest (jsTrimList text.data) = true →
      detectEntityType text none = "percentage")
    ∧ (∀ text : String, currencyTest (jsTrimList text.data) = false →
      percentageTest (jsTrimList text.data) = false →
      dateTest (jsTrimList text.data) = true →
      detectEntityType text none = "date")
    ∧ (∀ text : String, currencyTest (jsTrimList text.data) = false →
      percentageTest (jsTrimList text.data) = false →
      dateTest (jsTrimList text.data) = false →
      numberTest (jsTrimList text.data) = true →
      detectEntityType text none = "number")
    ∧ (∀ text : String, currencyTest (jsTrimList text.data) = false →
      percentageTest (jsTrimList text.data) = false →
      dateTest (jsTrimList text.data) = false →
      numberTest (jsTrimList text.data) = false →
      ((jsTrimList text.data).length < 50 ∧ ¬ (jsTrimList text.data).contains '\n' = true →
        detectEntityType text none = "label")
      ∧ (¬ ((jsTrimList text.data).length < 50 ∧ ¬ (jsTrimList text.data).contains '\n' = true) →
        detectEntityType text none = "text"))
    ∧ detectEntityType "$1,234.56" none = "currency"
    ∧ detectEntityType "45%" none = "percentage"
    ∧ detectEntityType "2024-01-15" none = "date"
    ∧ detectEntityType "Total" (some "Total Revenue") = "total" := by
  have hsubtot : ∀ lab : String,
      listIncludes (jsLowerList lab.data) "subtotal".data = true →
      listIncludes (jsLowerList lab.data) "total".data = true := by
    intro lab h
    exact listIncludes_trans _ _ _ h (by decide)
  refine ⟨?_, hsubtot, ?_, ?_, ?_, ?_, ?_, ?_, ?_, by decide, by decide, by decide, by decide⟩
  · intro text lab hne htot
    have hne2 : (lab == "") = false := by simpa using hne
    simp [detectEntityType, hne2, htot]
  · intro text lab hne htot hdate
    have hne2 : (lab == "") = false := by simpa using hne
    have hsub : listIncludes (jsLowerList lab.data) "subtotal".data = false := by
      cases hs : listIncludes (jsLowerList lab.data) "subtotal".data
      · rfl
      · rw [hsubtot lab hs] at htot
        exact Bool.noConfusion htot
    simp [detectEntityType, hne2, htot, hsub, hdate]
  · intro text lab hne htot hdate
    have hne2 : (lab == "") = false := by simpa using hne
    have hsub : listIncludes (jsLowerList lab.data) "subtotal".data = false := by
      cases hs : listIncludes (jsLowerList lab.data) "subtotal".data
      · rfl
      · rw [hsubtot lab hs] at htot
        exact Bool.noConfusion htot
    simp [detectEntityType, hne2, htot, hsub, hdate]
  · intro text hc
    simp [detectEntityType, detectEntityTypeCore, hc]
  · intro text hc hp
    simp [detectEntityType, detectEntityTypeCore, hc, hp]
  · intro text hc hp hd
    simp [detectEntityType, detectEntityTypeCore, hc, hp, hd]
  · intro text hc hp hd hn
    simp [detectEntityType, detectEntityTypeCore, hc, hp, hd, hn]
  · intro text hc hp hd hn
    constructor
    · rintro ⟨h1, h2⟩
      have h2b : (jsTrimList text.data).contains '\n' = false := by
        cases hcn : (jsTrimList text.data).contains '\n'
        · rfl
        · exact absurd hcn h2
      unfold detectEntityType detectEntityTypeCore
      dsimp only
      rw [if_neg (by simp [hc]), if_neg (by simp [hp]), if_neg (by simp [hd]),
        if_neg (by simp [hn]), if_pos (by rw [h2b]; simp [h1])]
    · intro hno
      unfold detectEntityType detectEntityTypeCore
      dsimp only
      rw [if_neg (by simp [hc]), if_neg (by simp [hp]), if_neg (by simp [hd]),
        if_neg (by simp [hn]), if_neg]
      intro hcond
      rcases Bool.and_eq_true_iff.mp hcond with ⟨h1, h2⟩
      exact hno ⟨by simpa using h1, by simpa using h2⟩

/-- Witness for C3 at concrete inputs. -/
theorem claim_C3_witness :
    (¬ ("Total Revenue" : String) = "")
    ∧ listIncludes (jsLowerList "Total Revenue".data) "total".data = true
    ∧ detectEntityType "9" (some "Total Revenue") = "total" :=
  ⟨by decide, by decide, claim_C3.1 "9" "Total Revenue" (by decide) (by decide)⟩

/-- C3 counterexample: a label containing "subtotal" is classified
"total", not "subtotal", because the "total" substring check runs first. -/
theorem claim_C3_counterexample :
    listIncludes (jsLowerList "Subtotal".data) "subtotal".data = true
    ∧ detectEntityType "100" (some "Subtotal") = "total"
    ∧ ¬ detectEntityType "100" (some "Subtotal") = "subtotal" := by
  refine ⟨by decide, by decide, by decide⟩

/-! ## Concrete sample data for witnesses and counterexamples -/

def sampleMeta : List (String × JsValue) :=
  buildMeta
    { confidence := .num 1
      verificationStatus := .str "pending"
      verified := .bool false
      source := .str "ocr" }

def sampleEntity (i ty : String) (y x : ℚ) : VirtualEntity :=
  { id := i
    type := .str ty
    text := .str "sample"
    value := .undefined
    bbox := { xmin := x, ymin := y, xmax := x, ymax := y }
    meta := sampleMeta
    pageIndex := 0
    tableId := none
    rowIndex := none
    colIndex := none }

def samplePage : VirtualPage :=
  { id := "p_0"
    pageIndex := 0
    pageNumber := 1
    entities := [sampleEntity "t1" "table" 0 0, sampleEntity "f1" "figure" (1/4) 0,
                 sampleEntity "x1" "text" (1/2) 0]
    meta := calculatePageMeta []
    markdown := none }

def sampleDoc : VirtualDoc :=
  { id := "d"
    version := 1
    pages := [samplePage]
    meta :=
      { fileName := "f", documentType := "document", totalPages := 1,
        totalEntities := 3, verifiedCount := 0, flaggedCount := 0,
        pendingCount := 3, verificationScore := 0, createdAt := 0,
        lastModified := 0 } }

/-- C10: a nonempty selector consisting only of word characters and
hyphens produces an empty compound part list, so matchesSelector is
false for every entity and QueryResult.filter with such a bare string is
always empty. -/
theorem claim_C10 (s : String) (h1 : ¬ s = "")
    (h2 : ∀ c ∈ s.data, wordHyphen c = true) :
    (∀ e : VirtualEntity, matchesSelector e s = false)
    ∧ (∀ r : QueryResult, (QueryResult.filter r s).elements = []) := by
  have hparse : ∀ l : List Char, (∀ c ∈ l, wordHyphen c = true) →
      parseCompoundGo l = [] := by
    intro l
    induction l with
    | nil =>
      intro _
      unfold parseCompoundGo
      rfl
    | cons c rest ih =>
      intro hl
      have hc : wordHyphen c = true := hl c (List.mem_cons_self c rest)
      have hdot : (c == '.' || c == '#') = false := by
        cases hcc : c == '.'
        · cases hcc2 : c == '#'
          · rfl
          · have : c = '#' := by simpa using hcc2
            rw [this] at hc
            exact absurd hc (by decide)
        · have : c = '.' := by simpa using hcc
          rw [this] at hc
          exact absurd hc (by decide)
      have hbr : (c == '[') = false := by
        cases hcc : c == '['
        · rfl
        · have : c = '[' := by simpa using hcc
          rw [this] at hc
          exact absurd hc (by decide)
      have hcol : (c == ':') = false := by
        cases hcc : c == ':'
        · rfl
        · have : c = ':' := by simpa using hcc
          rw [this] at hc
          exact absurd hc (by decide)
      have hstar : (c == '*') = false := by
        cases hcc : c == '*'
        · rfl
        · have : c = '*' := by simpa using hcc
          rw [this] at hc
          exact absurd hc (by decide)
      unfold parseCompoundGo
      rw [if_neg (by simp [hdot]), if_neg (by simp [hbr]), if_neg (by simp [hcol]),
        if_neg (by simp [hstar])]
      exact ih (fun c2 hc2 => hl c2 (List.mem_cons_of_mem c hc2))
  have hstar : (s == "*") = false := by
    cases hs : s == "*"
    · rfl
    · exfalso
      have : s = "*" := by simpa using hs
      subst this
      have := h2 '*' (by decide)
      exact absurd this (by decide)
  have hmatch : ∀ e : VirtualEntity, matchesSelector e s = false := by
    intro e
    unfold matchesSelector
    rw [if_neg (by simp [hstar] : ¬ (s == "*") = true)]
    rw [hparse s.data h2]
    rfl
  refine ⟨hmatch, ?_⟩
  intro r
  unfold QueryResult.filter
  dsimp only
  rw [List.filter_eq_nil_iff.mpr]
  intro e _
  rw [hmatch e]
  exact Bool.noConfusion

/-- Witness for C10 with the bare type name selector. -/
theorem claim_C10_witness :
    (¬ ("currency" : String) = "")
    ∧ matchesSelector (sampleEntity "a" "currency" 0 0) "currency" = false
    ∧ (QueryResult.filter ⟨[sampleEntity "a" "currency" 0 0], []⟩ "currency").elements = [] :=
  ⟨by decide,
   (claim_C10 "currency" (by decide) (by decide)).1 _,
   (claim_C10 "currency" (by decide) (by decide)).2 _⟩

/-- C7: when the selector splits into two or more OR branches, queryAll
returns the first-occurrence id-deduplicated union of the per-branch
matches (in branch order), with an empty mutation log. -/
theorem claim_C7 (doc : VirtualDoc) (s : String)
    (h : 2 ≤ (splitOrSelector s).length) :
    queryAll doc s =
      { elements :=
          dedupById ((splitOrSelector s).flatMap (branchMatches (allEntitiesOf doc)))
        mutationLog := [] } := by
  have hne : (s == "") = false := by
    cases hs : s == ""
    · rfl
    · exfalso
      have : s = "" := by simpa using hs
      subst this
      have : splitOrSelector "" = [] := by decide
      rw [this] at h
      exact absurd h (by decide)
  have hstar : (s == "*") = false := by
    cases hs : s == "*"
    · rfl
    · exfalso
      have : s = "*" := by simpa using hs
      subst this
      have : splitOrSelector "*" = ["*"] := by decide
      rw [this] at h
      exact absurd h (by decide)
  have hlen : ((splitOrSelector s).length == 1) = false := by
    cases hl : (splitOrSelector s).length == 1
    · rfl
    · exfalso
      have : (splitOrSelector s).length = 1 := by simpa using hl
      rw [this] at h
      exact absurd h (by decide)
  unfold queryAll
  dsimp only
  rw [if_neg (by simp [hne, hstar]), if_neg (by simp [hlen])]
  rw [queryOr_fold]
  rfl

/-- Witness for C7: a two-branch OR selector over the sample document. -/
theorem claim_C7_witness :
    2 ≤ (splitOrSelector ".table, .figure").length
    ∧ queryAll sampleDoc ".table, .figure" =
        { elements :=
            dedupById ((splitOrSelector ".table, .figure").flatMap
              (branchMatches (allEntitiesOf sampleDoc)))
          mutationLog := [] } :=
  ⟨by decide, claim_C7 sampleDoc ".table, .figure" (by decide)⟩

/-- C8 (corrected): sortByPosition returns a fresh result whose element
list is a permutation of the input, each ADJACENT pair satisfies the
comparator direction (ymin order beyond the 0.01 tolerance, xmin order
within it), and the relative order of entities with exactly equal
(ymin, xmin) is preserved; the claimed all-pairs postcondition is
refuted separately. -/
theorem claim_C8 (r : QueryResult) :
    ((QueryResult.sortByPosition r).elements).Perm r.elements
    ∧ ((QueryResult.sortByPosition r).elements).Chain' (fun a b =>
        if |a.bbox.ymin - b.bbox.ymin| > 1/100 then a.bbox.ymin ≤ b.bbox.ymin
        else a.bbox.xmin ≤ b.bbox.xmin)
    ∧ (QueryResult.sortByPosition r).mutationLog = []
    ∧ ∀ y x : ℚ,
        ((QueryResult.sortByPosition r).elements).filter
            (fun e => decide ((e.bbox.ymin, e.bbox.xmin) = (y, x)))
          = r.elements.filter
              (fun e => decide ((e.bbox.ymin, e.bbox.xmin) = (y, x))) := by
  refine ⟨stableSortBy_perm ltPosition r.elements, ?_, rfl, ?_⟩
  · have hch := stableSortBy_chain ltPosition ltPosition_asymm r.elements
    refine hch.imp ?_
    intro a b h
    have h0 : ¬ cmpPosition b a < 0 := by
      simpa [ltPosition] using h
    have h1 : 0 ≤ cmpPosition b a := not_lt.mp h0
    have habs : |a.bbox.ymin - b.bbox.ymin| = |b.bbox.ymin - a.bbox.ymin| :=
      abs_sub_comm _ _
    by_cases hc : |a.bbox.ymin - b.bbox.ymin| > 1/100
    · rw [if_pos hc]
      have : cmpPosition b a = b.bbox.ymin - a.bbox.ymin := by
        unfold cmpPosition
        rw [if_pos (by rw [qabs_eq_abs, ← habs]; exact hc)]
      rw [this] at h1
      linarith
    · rw [if_neg hc]
      have : cmpPosition b a = b.bbox.xmin - a.bbox.xmin := by
        unfold cmpPosition
        rw [if_neg (by rw [qabs_eq_abs, ← habs]; exact hc)]
      rw [this] at h1
      linarith
  · intro y x
    refine stableSortBy_filter_key (fun e => (e.bbox.ymin, e.bbox.xmin))
      ltPosition r.elements (y, x) ?_
    intro a b hab
    have hy : a.bbox.ymin = b.bbox.ymin := congrArg Prod.fst hab
    have hx : a.bbox.xmin = b.bbox.xmin := congrArg Prod.snd hab
    unfold ltPosition cmpPosition
    rw [hy, hx]
    simp [qabs]

def posEnt (i : String) (y x : ℚ) : VirtualEntity :=
  { id := i
    type := .str "text"
    text := .str i
    value := .undefined
    bbox := { xmin := x, ymin := y, xmax := x + 1, ymax := y + 1 }
    meta := sampleMeta
    pageIndex := 0
    tableId := none
    rowIndex := none
    colIndex := none }

def posA : VirtualEntity := posEnt "a" 0 10
def posB : VirtualEntity := posEnt "b" (1/100) 5
def posC : VirtualEntity := posEnt "c" (2/100) 0

/-- Counterexample for C8: on three entities whose ymins are pairwise
within tolerance only for adjacent pairs, the sorted output violates the
claimed all-pairs postcondition, and in fact no ordering of these
entities satisfies it. -/
theorem claim_C8_counterexample :
    ¬ claimPositionOrdered
        (QueryResult.sortByPosition ⟨[posA, posB, posC], []⟩).elements
    ∧ ¬ claimPositionOrdered [posA, posB, posC]
    ∧ ¬ claimPositionOrdered [posA, posC, posB]
    ∧ ¬ claimPositionOrdered [posB, posA, posC]
    ∧ ¬ claimPositionOrdered [posB, posC, posA]
    ∧ ¬ claimPositionOrdered [posC, posA, posB]
    ∧ ¬ claimPositionOrdered [posC, posB, posA] := by
  decide

/-- The cell bbox formula of parseTableCells, as a function of the grid
dimensions and the cell position. -/
def cellBBoxOf (t : SourceTable) (R C : ℕ) (r c : ℕ) : BBox :=
  let tableWidth := t.bbox.xmax - t.bbox.xmin
  let tableHeight := t.bbox.ymax - t.bbox.ymin
  let rowHeight := tableHeight / (R : ℚ)
  let colWidth := if C > 0 then tableWidth / (C : ℚ) else tableWidth
  { xmin := t.bbox.xmin + (c : ℚ) * colWidth
    ymin := t.bbox.ymin + (r : ℚ) * rowHeight
    xmax := t.bbox.xmin + ((c : ℚ) + 1) * colWidth
    ymax := t.bbox.ymin + ((r : ℚ) + 1) * rowHeight }

/-- The cell entity built by parseTableCells for one retained cell. -/
def cellEntityOf (opts : CompilerOptions) (t : SourceTable) (pageIndex : Int)
    (R C : ℕ) (isHeader : Bool) (r c : ℕ) (text : String) : VirtualEntity :=
  let entityType := if isHeader then "header"
    else if opts.autoDetectTypes then detectEntityType text none
    else "table_cell"
  { id := t.id ++ "_r" ++ toString r ++ "_c" ++ toString c
    type := .str entityType
    text := .str text
    value := parseValueC text entityType
    bbox := cellBBoxOf t R C r c
    meta := buildMeta
      { confidence := jsNullish (optNum t.confidence) (.num 0)
        verificationStatus := .str (jsOrString t.verification_status "pending")
        verified := .bool (t.verification_status == some "verified")
        wasCorrected := .bool false
        source := .str "ocr" }
    pageIndex := pageIndex
    tableId := some t.id
    rowIndex := some (Int.ofNat r)
    colIndex := some (Int.ofNat c) }

theorem mem_parseTableCells (opts : CompilerOptions) (t : SourceTable)
    (pageIndex : Int) (h : (parseMarkdownTable t.markdown).rows ≠ [])
    (e : VirtualEntity) :
    e ∈ DocCompiler.parseTableCells opts t pageIndex ↔
      ∃ r c : ℕ, ∃ row : MdRow, ∃ text : String,
        (parseMarkdownTable t.markdown).rows[r]? = some row
        ∧ row.cells[c]? = some text
        ∧ (jsTrimList text.data).isEmpty = false
        ∧ e = cellEntityOf opts t pageIndex
            (parseMarkdownTable t.markdown).rows.length
            (parseMarkdownTable t.markdown).columnCount row.isHeader r c text := by
  have hne : ¬ (((parseMarkdownTable t.markdown).rows.length == 0) = true) := by
    simp only [beq_iff_eq, List.length_eq_zero]
    exact h
  unfold DocCompiler.parseTableCells
  dsimp only
  rw [if_neg hne, List.mem_flatMap]
  constructor
  · rintro ⟨rc, hrc, hmem⟩
    rw [List.mem_filterMap] at hmem
    rcases hmem with ⟨cc, hcc, heq⟩
    by_cases hblank : (jsTrimList cc.2.data).isEmpty
    · rw [if_pos hblank] at heq
      exact absurd heq (by simp)
    · rw [if_neg hblank] at heq
      refine ⟨rc.1, cc.1, rc.2, cc.2, List.mem_enum_iff_getElem?.mp hrc,
        List.mem_enum_iff_getElem?.mp hcc, by simpa using hblank, ?_⟩
      exact (Option.some.inj heq).symm
  · rintro ⟨r, c, row, text, hrow, hcell, hblank, he⟩
    refine ⟨(r, row), List.mem_enum_iff_getElem?.mpr hrow, ?_⟩
    rw [List.mem_filterMap]
    refine ⟨(c, text), List.mem_enum_iff_getElem?.mpr hcell, ?_⟩
    rw [if_neg (by simp [hblank])]
    rw [he]
    rfl

theorem sum_map_add_sum_map {α : Type} (f g : α → ℕ) (l : List α) :
    (l.map f).sum + (l.map g).sum = (l.map (fun a => f a + g a)).sum := by
  induction l with
  | nil => rfl
  | cons a l ih =>
    simp only [List.map_cons, List.sum_cons]
    omega

theorem parseTableCells_eq (opts : CompilerOptions) (t : SourceTable)
    (pageIndex : Int)
    (h : ¬ (((parseMarkdownTable t.markdown).rows.length == 0) = true)) :
    DocCompiler.parseTableCells opts t pageIndex
      = (parseMarkdownTable t.markdown).rows.enum.flatMap (fun rc =>
          rc.2.cells.enum.filterMap (fun cc =>
            if (jsTrimList cc.2.data).isEmpty then none
            else some (cellEntityOf opts t pageIndex
              (parseMarkdownTable t.markdown).rows.length
              (parseMarkdownTable t.markdown).columnCount
              rc.2.isHeader rc.1 cc.1 cc.2))) := by
  unfold DocCompiler.parseTableCells
  dsimp only
  rw [if_neg h]
  rfl

theorem length_flatMap_cells {β : Type} (rows : List MdRow)
    (p : String → Bool) (bld : ℕ × MdRow → ℕ × String → β) :
    (rows.enum.flatMap (fun rc =>
        rc.2.cells.enum.filterMap (fun cc =>
          if p cc.2 then none else some (bld rc cc)))).length
      = (rows.map (fun row => row.cells.countP (fun s => !(p s)))).sum := by
  rw [List.length_flatMap]
  simp only [Function.comp_def]
  have h1 : rows.enum.map (fun rc =>
        (rc.2.cells.enum.filterMap (fun cc =>
          if p cc.2 then none else some (bld rc cc))).length)
      = rows.enum.map (fun rc => rc.2.cells.countP (fun s => !(p s))) := by
    refine List.map_congr_left ?_
    intro rc _
    rw [length_filterMap_if p (bld rc)]
    exact countP_enumFrom_snd (fun s => !(p s)) rc.2.cells 0
  rw [h1]
  conv_rhs => rw [← List.enum_map_snd rows, List.map_map]
  rfl

/-- C4 (corrected): for a table whose markdown parses into a nonempty
row list, the cell entities number exactly the nonblank cells (hence at
most rows times columnCount minus the blank cells), each cell carries
the uniform-grid bbox formula, first-row cells are typed header, and
other cells get detectEntityType (or table_cell when auto-detection is
off); containment of the cell bboxes in the table bbox additionally
requires the table bbox to be well formed (xmin ≤ xmax and ymin ≤ ymax),
which the original claim omitted. -/
theorem claim_C4 (opts : CompilerOptions) (t : SourceTable) (pageIndex : Int)
    (hrows : (parseMarkdownTable t.markdown).rows ≠ []) :
    (DocCompiler.parseTableCells opts t pageIndex).length
        + blankCellCount (parseMarkdownTable t.markdown)
      = totalCellCount (parseMarkdownTable t.markdown)
    ∧ totalCellCount (parseMarkdownTable t.markdown)
        ≤ (parseMarkdownTable t.markdown).rows.length
            * (parseMarkdownTable t.markdown).columnCount
    ∧ (∀ e ∈ DocCompiler.parseTableCells opts t pageIndex, ∃ r c : ℕ,
        e.rowIndex = some (Int.ofNat r)
        ∧ e.colIndex = some (Int.ofNat c)
        ∧ e.bbox = cellBBoxOf t (parseMarkdownTable t.markdown).rows.length
            (parseMarkdownTable t.markdown).columnCount r c
        ∧ (r = 0 → e.type = .str "header")
        ∧ (r ≠ 0 → opts.autoDetectTypes = true →
            ∃ text, e.text = .str text
              ∧ e.type = .str (detectEntityType text none))
        ∧ (r ≠ 0 → opts.autoDetectTypes = false → e.type = .str "table_cell"))
    ∧ (t.bbox.xmin ≤ t.bbox.xmax → t.bbox.ymin ≤ t.bbox.ymax →
        ∀ e ∈ DocCompiler.parseTableCells opts t pageIndex,
          bboxContained e.bbox t.bbox) := by
  have hne : ¬ (((parseMarkdownTable t.markdown).rows.length == 0) = true) := by
    simp only [beq_iff_eq, List.length_eq_zero]
    exact hrows
  refine ⟨?_, ?_, ?_, ?_⟩
  · rw [parseTableCells_eq opts t pageIndex hne,
      length_flatMap_cells (parseMarkdownTable t.markdown).rows
        (fun s => (jsTrimList s.data).isEmpty)
        (fun rc cc => cellEntityOf opts t pageIndex
          (parseMarkdownTable t.markdown).rows.length
          (parseMarkdownTable t.markdown).columnCount rc.2.isHeader rc.1 cc.1 cc.2)]
    unfold blankCellCount totalCellCount
    rw [sum_map_add_sum_map]
    refine congrArg List.sum (List.map_congr_left ?_)
    intro row _
    rw [← List.countP_eq_length_filter]
    exact countP_not_add_countP (fun s => (jsTrimList s.data).isEmpty) row.cells
  · exact sum_map_le_mul (fun r => r.cells.length)
      ((parseMarkdownTable t.markdown).columnCount)
      (parseMarkdownTable t.markdown).rows
      (fun row hrow => mem_le_foldl_max (fun r => r.cells.length) _ 0 row hrow)
  · intro e he
    rw [mem_parseTableCells opts t pageIndex hrows e] at he
    rcases he with ⟨r, c, row, text, hrow, hcell, hblank, rfl⟩
    have hhead : row.isHeader = decide (r = 0) :=
      parseMarkdownTable_header t.markdown r row hrow
    refine ⟨r, c, rfl, rfl, rfl, ?_, ?_, ?_⟩
    · intro hr0
      subst hr0
      have hh : row.isHeader = true := by rw [hhead]; simp
      simp [cellEntityOf, hh]
    · intro hr0 hauto
      have hh : row.isHeader = false := by rw [hhead]; simp [hr0]
      exact ⟨text, by simp [cellEntityOf], by simp [cellEntityOf, hh, hauto]⟩
    · intro hr0 hnauto
      have hh : row.isHeader = false := by rw [hhead]; simp [hr0]
      simp [cellEntityOf, hh, hnauto]
  · intro hwx hwy e he
    rw [mem_parseTableCells opts t pageIndex hrows e] at he
    rcases he with ⟨r, c, row, text, hrow, hcell, hblank, rfl⟩
    have hrlt : r < (parseMarkdownTable t.markdown).rows.length :=
      (List.getElem?_eq_some.mp hrow).1
    have hclt : c < row.cells.length := (List.getElem?_eq_some.mp hcell).1
    have hrowmem : row ∈ (parseMarkdownTable t.markdown).rows := by
      rcases List.getElem?_eq_some.mp hrow with ⟨hlt, heq⟩
      rw [← heq]
      exact List.getElem_mem hlt
    have hcc : row.cells.length ≤ (parseMarkdownTable t.markdown).columnCount :=
      mem_le_foldl_max (fun rr => rr.cells.length) _ 0 row hrowmem
    have hC : 0 < (parseMarkdownTable t.markdown).columnCount :=
      lt_of_lt_of_le (lt_of_le_of_lt (Nat.zero_le c) hclt) hcc
    have hR : 0 < (parseMarkdownTable t.markdown).rows.length :=
      List.length_pos.mpr hrows
    have hgoal : bboxContained
        (cellBBoxOf t (parseMarkdownTable t.markdown).rows.length
          (parseMarkdownTable t.markdown).columnCount r c) t.bbox := by
      unfold cellBBoxOf bboxContained
      dsimp only
      rw [if_pos hC]
      have hCq : (0:ℚ) < ((parseMarkdownTable t.markdown).columnCount : ℚ) := by
        exact_mod_cast hC
      have hRq : (0:ℚ) < ((parseMarkdownTable t.markdown).rows.length : ℚ) := by
        exact_mod_cast hR
      have hw : (0:ℚ) ≤ t.bbox.xmax - t.bbox.xmin := by linarith
      have hh : (0:ℚ) ≤ t.bbox.ymax - t.bbox.ymin := by linarith
      have hcw : (0:ℚ) ≤ (t.bbox.xmax - t.bbox.xmin)
          / ((parseMarkdownTable t.markdown).columnCount : ℚ) :=
        div_nonneg hw hCq.le
      have hrh : (0:ℚ) ≤ (t.bbox.ymax - t.bbox.ymin)
          / ((parseMarkdownTable t.markdown).rows.length : ℚ) :=
        div_nonneg hh hRq.le
      have hc1 : ((c:ℚ) + 1) ≤ ((parseMarkdownTable t.markdown).columnCount : ℚ) := by
        have : c + 1 ≤ (parseMarkdownTable t.markdown).columnCount :=
          Nat.succ_le_of_lt (lt_of_lt_of_le hclt hcc)
        exact_mod_cast this
      have hr1 : ((r:ℚ) + 1) ≤ ((parseMarkdownTable t.markdown).rows.length : ℚ) := by
        have : r + 1 ≤ (parseMarkdownTable t.markdown).rows.length :=
          Nat.succ_le_of_lt hrlt
        exact_mod_cast this
      have hcancx : ((parseMarkdownTable t.markdown).columnCount : ℚ)
          * ((t.bbox.xmax - t.bbox.xmin)
              / ((parseMarkdownTable t.markdown).columnCount : ℚ))
          = t.bbox.xmax - t.bbox.xmin := by
        field_simp
      have hcancy : ((parseMarkdownTable t.markdown).rows.length : ℚ)
          * ((t.bbox.ymax - t.bbox.ymin)
              / ((parseMarkdownTable t.markdown).rows.length : ℚ))
          = t.bbox.ymax - t.bbox.ymin := by
        field_simp
      refine ⟨?_, ?_, ?_, ?_⟩
      · have h0 : 0 ≤ (c:ℚ) * ((t.bbox.xmax - t.bbox.xmin)
            / ((parseMarkdownTable t.markdown).columnCount : ℚ)) :=
          mul_nonneg (Nat.cast_nonneg c) hcw
        linarith
      · have hstep := mul_le_mul_of_nonneg_right hc1 hcw
        linarith
      · have h0 : 0 ≤ (r:ℚ) * ((t.bbox.ymax - t.bbox.ymin)
            / ((parseMarkdownTable t.markdown).rows.length : ℚ)) :=
          mul_nonneg (Nat.cast_nonneg r) hrh
        linarith
      · have hstep := mul_le_mul_of_nonneg_right hr1 hrh
        linarith
    exact hgoal

def tC4w : SourceTable :=
  { id := "tw"
    page_number := 1
    markdown := "| A | B |\n|---|---|\n| 1 |  |"
    bbox := { xmin := 0, ymin := 0, xmax := 2, ymax := 1 }
    confidence := none
    verification_status := none
    verified_by := none
    verified_at := none
    was_corrected := none }

/-- Witness for C4 on a concrete two-column table with one blank cell
and a well-formed bbox. -/
theorem claim_C4_witness :
    (parseMarkdownTable tC4w.markdown).rows ≠ []
    ∧ (DocCompiler.parseTableCells (defaultCompilerOptions "d") tC4w 0).length
          + blankCellCount (parseMarkdownTable tC4w.markdown)
        = totalCellCount (parseMarkdownTable tC4w.markdown)
    ∧ (tC4w.bbox.xmin ≤ tC4w.bbox.xmax → tC4w.bbox.ymin ≤ tC4w.bbox.ymax →
        ∀ e ∈ DocCompiler.parseTableCells (defaultCompilerOptions "d") tC4w 0,
          bboxContained e.bbox tC4w.bbox) :=
  ⟨by decide,
   (claim_C4 (defaultCompilerOptions "d") tC4w 0 (by decide)).1,
   (claim_C4 (defaultCompilerOptions "d") tC4w 0 (by decide)).2.2.2⟩

def tC4inv : SourceTable :=
  { id := "ti"
    page_number := 1
    markdown := "| a |\n| b |"
    bbox := { xmin := 0, ymin := 1, xmax := 1, ymax := 0 }
    confidence := none
    verification_status := none
    verified_by := none
    verified_at := none
    was_corrected := none }

/-- Counterexample for C4 as stated: with an inverted table bbox
(ymin above ymax, as nothing in compile() validates bboxes), not every
cell bbox is contained in the table bbox. -/
theorem claim_C4_counterexample :
    ((DocCompiler.parseTableCells (defaultCompilerOptions "d") tC4inv 0).all
        (fun e => decide (bboxContained e.bbox tC4inv.bbox))) = false := by
  decide

def tC5 : SourceTable :=
  { id := "t1"
    page_number := 1
    markdown := "| A | B |\n|---|---|\n| 1 | 2 |"
    bbox := { xmin := 0, ymin := 0, xmax := 1, ymax := 1/2 }
    confidence := none
    verification_status := none
    verified_by := none
    verified_at := none
    was_corrected := none }

def stC5 : CompilerState :=
  { options := defaultCompilerOptions "d"
    tables := [tC5]
    entities := []
    extractedEntities := []
    ocrBlocks := []
    markdownBlocks := []
    version := 7 }

/-- C5 (corrected): compiling the single two-by-two table yields one
page (page 1) whose entities are one table entity, TWO header cell
entities (the first markdown row is retained as a header row, which the
original claim omitted), and two cells typed currency with numeric
values 1 and 2; every cell bbox is contained in the table bbox. -/
theorem claim_C5 :
    ((DocCompiler.compile stC5 0).map (fun doc =>
        doc.pages.map (fun p => (p.pageNumber,
          p.entities.map (fun e => (e.type, e.value))))))
      = some [(1, [(.str "table", .undefined), (.str "header", .undefined),
                   (.str "header", .undefined), (.str "currency", .num 1),
                   (.str "currency", .num 2)])]
    ∧ ((DocCompiler.compile stC5 0).map (fun doc =>
        doc.pages.flatMap (fun p =>
          (p.entities.filter (fun e => e.tableId != none)).map (fun e =>
            decide (bboxContained e.bbox tC5.bbox)))))
      = some [true, true, true, true] := by
  decide

/-- Counterexample for C5 as stated: page 1 holds five entities, not the
three (one table plus two value cells) the claim describes — the two
header cells are also emitted. -/
theorem claim_C5_counterexample :
    ((DocCompiler.compile stC5 0).map (fun doc =>
        doc.pages.map (fun p => p.entities.length)))
      = some [5]
    ∧ ((DocCompiler.compile stC5 0).map (fun doc =>
        doc.pages.map (fun p =>
          (p.entities.filter (fun e => e.type == JsValue.str "header")).length)))
      = some [2] := by
  decide

/-- C6: total behaviour of compile(): compile always returns a document
(the missing-bucket branch is unreachable, so the model's only failure
path never fires); markdown with zero retained rows yields zero cell
entities; and numeric-typed cell text that does not parse yields an
undefined value rather than an error. -/
theorem claim_C6 :
    (∀ (st : CompilerState) (now : Int),
        (DocCompiler.compile st now).isSome = true)
    ∧ (∀ (opts : CompilerOptions) (t : SourceTable) (pageIndex : Int),
        (parseMarkdownTable t.markdown).rows = [] →
        DocCompiler.parseTableCells opts t pageIndex = [])
    ∧ (∀ (text ty : String),
        (ty = "currency" ∨ ty = "number" ∨ ty = "percentage") →
        jsParseFloat (cleanNumericChars text) = none →
        parseValueC text ty = JsValue.undefined) := by
  refine ⟨?_, ?_, ?_⟩
  · intro st now
    rcases compile_char st now with ⟨doc, hdoc, _⟩
    rw [hdoc]
    rfl
  · intro opts t pageIndex h
    unfold DocCompiler.parseTableCells
    dsimp only
    rw [if_pos (by simp [h])]
  · intro text ty hty hnone
    unfold parseValueC
    rcases hty with rfl | rfl | rfl
    · rw [if_pos (by decide), hnone]
    · rw [if_pos (by decide), hnone]
    · rw [if_neg (by decide), if_pos (by decide), hnone]

def tPlain : SourceTable :=
  { id := "tp"
    page_number := 1
    markdown := "no table here"
    bbox := { xmin := 0, ymin := 0, xmax := 1, ymax := 1 }
    confidence := none
    verification_status := none
    verified_by := none
    verified_at := none
    was_corrected := none }

/-- Witness for C6 at concrete inputs: a populated state compiles, a
pipe-free markdown produces no cells, and the unparsable text n/a gives
an undefined value. -/
theorem claim_C6_witness :
    (DocCompiler.compile stC5 0).isSome = true
    ∧ (parseMarkdownTable tPlain.markdown).rows = []
    ∧ DocCompiler.parseTableCells (defaultCompilerOptions "d") tPlain 0 = []
    ∧ jsParseFloat (cleanNumericChars "n/a") = none
    ∧ parseValueC "n/a" "number" = JsValue.undefined :=
  ⟨claim_C6.1 stC5 0,
   by decide,
   claim_C6.2.1 (defaultCompilerOptions "d") tPlain 0 (by decide),
   by decide,
   claim_C6.2.2 "n/a" "number" (Or.inr (Or.inl rfl)) (by decide)⟩

/-- C2: compile() returns pages in strictly ascending pageNumber order,
and within every page the entities are ascending by bbox.ymin, ties
keeping the construction order: filtering any exact ymin class gives the
same sequence as in the unsorted layer-by-layer list. -/
theorem claim_C2 (st : CompilerState) (now : Int) (doc : VirtualDoc)
    (h : DocCompiler.compile st now = some doc) :
    doc.pages.Pairwise (fun p q => p.pageNumber < q.pageNumber)
    ∧ ∀ pg ∈ doc.pages,
        pg.entities.Pairwise (fun a b => a.bbox.ymin ≤ b.bbox.ymin)
        ∧ ∀ q : ℚ,
            pg.entities.filter (fun e => decide (e.bbox.ymin = q))
              = (pageEntitiesUnsorted st pg.pageNumber).filter
                  (fun e => decide (e.bbox.ymin = q)) := by
  rcases compile_char st now with ⟨doc2, h2, hfa⟩
  rw [h2] at h
  have hdoc : doc2 = doc := Option.some.inj h
  subst hdoc
  have hperm := stableSortBy_perm (fun a b => decide (a < b))
    (dedupFirst (collectPageNumbers st))
  have hnd : (stableSortBy (fun a b => decide (a < b))
      (dedupFirst (collectPageNumbers st))).Nodup :=
    (hperm.nodup_iff).mpr (nodup_dedupFirst _)
  have hle : (stableSortBy (fun a b => decide (a < b))
      (dedupFirst (collectPageNumbers st))).Pairwise (fun a b => a ≤ b) :=
    stableSortBy_pairwise_le (fun x : ℤ => x) (dedupFirst (collectPageNumbers st))
  have hlt : (stableSortBy (fun a b => decide (a < b))
      (dedupFirst (collectPageNumbers st))).Pairwise (fun a b => a < b) :=
    (hle.and hnd).imp (fun hab => lt_of_le_of_ne hab.1 hab.2)
  refine ⟨?_, ?_⟩
  · refine pairwise_transfer hfa hlt ?_
    intro a b a2 b2 hqa hqb hab
    rw [hqa, hqb]
    simpa [DocCompiler.buildPage] using hab
  · intro pg hpg
    rcases forall₂_mem_right hfa pg hpg with ⟨p, hp, hq⟩
    subst hq
    constructor
    · exact stableSortBy_pairwise_le (fun e : VirtualEntity => e.bbox.ymin)
        (buildPageUnsorted st.options p (bucketOf st p))
    · intro q
      exact stableSortBy_filter_key (fun e : VirtualEntity => e.bbox.ymin) ltYmin
        (buildPageUnsorted st.options p (bucketOf st p)) q
        (fun a b hab => by simp [ltYmin, hab])

def oW : SourceOcr :=
  { id := "o1"
    page := 2
    text := "hello"
    bbox := { x := 0, y := 0, width := 1, height := 1 }
    confidence := 1
    verification_status := none }

def stW : CompilerState :=
  { options := defaultCompilerOptions "dw"
    tables := []
    entities := []
    extractedEntities := []
    ocrBlocks := [oW]
    markdownBlocks := []
    version := 3 }

def docW : VirtualDoc :=
  { id := "dw"
    version := 3
    pages := [{ id := "p_1"
                pageIndex := 1
                pageNumber := 2
                entities := [{ id := "o1"
                               type := JsValue.str "ocr"
                               text := JsValue.str "hello"
                               value := JsValue.undefined
                               bbox := { xmin := 0, ymin := 0, xmax := 1, ymax := 1 }
                               meta := [("verified", JsValue.bool false),
                                        ("verificationStatus", JsValue.str "pending"),
                                        ("verifiedBy", JsValue.undefined),
                                        ("verifiedAt", JsValue.undefined),
                                        ("confidence", JsValue.num 1),
                                        ("wasCorrected", JsValue.bool false),
                                        ("correctionType", JsValue.undefined),
                                        ("source", JsValue.str "ocr"),
                                        ("processorType", JsValue.undefined),
                                        ("flagReason", JsValue.undefined),
                                        ("flaggedBy", JsValue.undefined),
                                        ("flaggedAt", JsValue.undefined)]
                               pageIndex := 1
                               tableId := none
                               rowIndex := none
                               colIndex := none }]
                meta := { totalEntities := 1
                          verifiedCount := 0
                          flaggedCount := 0
                          pendingCount := 1
                          avgConfidence := 1
                          verificationScore := 0 }
                markdown := none }]
    meta := { fileName := "unknown"
              documentType := "document"
              totalPages := 1
              totalEntities := 1
              verifiedCount := 0
              flaggedCount := 0
              pendingCount := 1
              verificationScore := 0
              createdAt := 42
              lastModified := 42 } }

/-- Witness for C2 on a one-block state whose compiled document is given
literally. -/
theorem claim_C2_witness :
    DocCompiler.compile stW 42 = some docW
    ∧ docW.pages.Pairwise (fun p q => p.pageNumber < q.pageNumber)
    ∧ ∀ pg ∈ docW.pages,
        pg.entities.Pairwise (fun a b => a.bbox.ymin ≤ b.bbox.ymin) :=
  ⟨by decide,
   (claim_C2 stW 42 docW (by decide)).1,
   fun pg hpg => ((claim_C2 stW 42 docW (by decide)).2 pg hpg).1⟩

/-- C1 (corrected): setAttrs writes every field to every entity and
appends one EntityChange per (entity, field) pair whose prior value
differed under strict equality; but the version bump tests the
CUMULATIVE mutation log of the result, not the delta of this call: the
version increments whenever the accumulated log is nonempty, so only on
a fresh result (empty prior log) does it behave as the claim says. -/
theorem claim_C1 (attrs : List (String × JsValue)) (now : Int)
    (r : QueryResult) (v : Int)
    (hnd : (attrs.map Prod.fst).Nodup)
    (hmut : ∀ e ∈ r.elements, ∀ k, (k = "text" ∨ k = "value" ∨ k = "type") →
        metaLookup e.meta k = none) :
    (QueryResult.setAttrs attrs now r v).1.mutationLog
      = r.mutationLog ++ r.elements.flatMap (fun e =>
          (attrs.filter (fun kv =>
            !(jsStrictEq (QueryResult.getEntityAttr e kv.1) kv.2))).map
            (fun kv => { entityId := e.id, pageIndex := e.pageIndex,
                         field := kv.1,
                         oldValue := QueryResult.getEntityAttr e kv.1,
                         newValue := kv.2, timestamp := now }))
    ∧ (∀ e2 ∈ (QueryResult.setAttrs attrs now r v).1.elements,
        ∀ kv ∈ attrs, QueryResult.getEntityAttr e2 kv.1 = kv.2)
    ∧ (QueryResult.setAttrs attrs now r v).2
        = (if 0 < (QueryResult.setAttrs attrs now r v).1.mutationLog.length
           then v + 1 else v)
    ∧ (r.mutationLog = [] →
        (∃ e ∈ r.elements, ∃ kv ∈ attrs,
            jsStrictEq (QueryResult.getEntityAttr e kv.1) kv.2 = false) →
        (QueryResult.setAttrs attrs now r v).2 = v + 1)
    ∧ (r.mutationLog = [] →
        (∀ e ∈ r.elements, ∀ kv ∈ attrs,
            jsStrictEq (QueryResult.getEntityAttr e kv.1) kv.2 = true) →
        (QueryResult.setAttrs attrs now r v).2 = v)
    ∧ QueryResult.changes (QueryResult.setAttrs attrs now r v).1
        = (QueryResult.setAttrs attrs now r v).1.mutationLog := by
  have hlog : (QueryResult.setAttrs attrs now r v).1.mutationLog
      = r.mutationLog ++ r.elements.flatMap (fun e =>
          (attrs.filter (fun kv =>
            !(jsStrictEq (QueryResult.getEntityAttr e kv.1) kv.2))).map
            (fun kv => { entityId := e.id, pageIndex := e.pageIndex,
                         field := kv.1,
                         oldValue := QueryResult.getEntityAttr e kv.1,
                         newValue := kv.2, timestamp := now })) := by
    show r.mutationLog
        ++ (r.elements.map (applyAttrsEntity attrs now)).flatMap (fun p => p.2) = _
    rw [List.flatMap_map]
    congr 1
    refine List.flatMap_congr ?_
    intro e he
    exact (applyAttrsEntity_spec now attrs e hnd (hmut e he)).1
  refine ⟨hlog, ?_, rfl, ?_, ?_, rfl⟩
  · intro e2 he2 kv hkv
    have he2m : e2 ∈ (r.elements.map (applyAttrsEntity attrs now)).map
        (fun p => p.1) := he2
    rw [List.map_map] at he2m
    rcases List.mem_map.mp he2m with ⟨e, he, heq⟩
    rw [← heq]
    exact (applyAttrsEntity_spec now attrs e hnd (hmut e he)).2 kv hkv
  · intro hml hex
    rcases hex with ⟨e, he, kv, hkv, hfe⟩
    have hchange : ({ entityId := e.id, pageIndex := e.pageIndex,
                      field := kv.1,
                      oldValue := QueryResult.getEntityAttr e kv.1,
                      newValue := kv.2,
                      timestamp := now } : EntityChange)
        ∈ (QueryResult.setAttrs attrs now r v).1.mutationLog := by
      rw [hlog, hml, List.nil_append, List.mem_flatMap]
      exact ⟨e, he, List.mem_map_of_mem _
        (List.mem_filter.mpr ⟨hkv, by rw [hfe]; rfl⟩)⟩
    have hpos : 0 < (QueryResult.setAttrs attrs now r v).1.mutationLog.length :=
      List.length_pos.mpr (List.ne_nil_of_mem hchange)
    show (if 0 < (QueryResult.setAttrs attrs now r v).1.mutationLog.length
        then v + 1 else v) = v + 1
    rw [if_pos hpos]
  · intro hml hall
    have hempty : (QueryResult.setAttrs attrs now r v).1.mutationLog = [] := by
      rw [hlog, hml, List.nil_append]
      rw [List.flatMap_eq_nil_iff]
      intro e he
      rw [List.map_eq_nil_iff, List.filter_eq_nil_iff]
      intro kv hkv
      rw [hall e he kv hkv]
      simp
    show (if 0 < (QueryResult.setAttrs attrs now r v).1.mutationLog.length
        then v + 1 else v) = v
    rw [hempty]
    simp

def eC1 : VirtualEntity :=
  { id := "e1"
    type := .str "text"
    text := .str "hello"
    value := .undefined
    bbox := { xmin := 0, ymin := 0, xmax := 1, ymax := 1 }
    meta := sampleMeta
    pageIndex := 0
    tableId := none
    rowIndex := none
    colIndex := none }

/-- Witness for C1: writing verified := true to a pending entity bumps
the version and the written field reads back. -/
theorem claim_C1_witness :
    (QueryResult.setAttrs [("verified", JsValue.bool true)] 5 ⟨[eC1], []⟩ 1).2
      = 1 + 1
    ∧ (∀ e2 ∈ (QueryResult.setAttrs [("verified", JsValue.bool true)] 5
          ⟨[eC1], []⟩ 1).1.elements,
        ∀ kv ∈ [("verified", JsValue.bool true)],
          QueryResult.getEntityAttr e2 kv.1 = kv.2) := by
  have h := claim_C1 [("verified", JsValue.bool true)] 5 ⟨[eC1], []⟩ 1 (by decide)
    (by intro e he k hk
        have he2 : e = eC1 := by simpa using he
        subst he2
        rcases hk with rfl | rfl | rfl <;> decide)
  exact ⟨h.2.2.2.1 rfl
      ⟨eC1, by decide, ("verified", JsValue.bool true), by decide, by decide⟩,
    h.2.1⟩

/-- Counterexample for C1 as stated: a second identical setAttrs call
appends no change, yet the version still increments (2 to 3) because
the bump tests the cumulative log rather than the per-call delta. -/
theorem claim_C1_counterexample :
    (QueryResult.setAttrs [("verified", JsValue.bool true)] 5
        ⟨[eC1], []⟩ 1).1.mutationLog.length = 1
    ∧ (QueryResult.setAttrs [("verified", JsValue.bool true)] 5 ⟨[eC1], []⟩ 1).2 = 2
    ∧ (QueryResult.setAttrs [("verified", JsValue.bool true)] 6
          (QueryResult.setAttrs [("verified", JsValue.bool true)] 5
            ⟨[eC1], []⟩ 1).1
          (QueryResult.setAttrs [("verified", JsValue.bool true)] 5
            ⟨[eC1], []⟩ 1).2).1.mutationLog
        = (QueryResult.setAttrs [("verified", JsValue.bool true)] 5
            ⟨[eC1], []⟩ 1).1.mutationLog
    ∧ (QueryResult.setAttrs [("verified", JsValue.bool true)] 6
          (QueryResult.setAttrs [("verified", JsValue.bool true)] 5
            ⟨[eC1], []⟩ 1).1
          (QueryResult.setAttrs [("verified", JsValue.bool true)] 5
            ⟨[eC1], []⟩ 1).2).2 = 3 := by
  decide

theorem flatMap_if_singleton {α β : Type} (p : α → Bool) (g : α → β)
    (l : List α) :
    l.flatMap (fun a => if p a then [] else [g a])
      = (l.filter (fun a => !(p a))).map g := by
  induction l with
  | nil => rfl
  | cons a l ih =>
    by_cases h : p a
    · simp [List.flatMap_cons, h, List.filter_cons, ih]
    · simp [List.flatMap_cons, h, List.filter_cons, ih]

/-- C9: removing a top-level key (text, value or type, not present in
the meta object) logs one EntityChange with newValue undefined per
entity whose value was defined and increments the version when at least
one such entity exists, yet leaves every entity unchanged: only meta
keys are actually deleted. -/
theorem claim_C9 (key : String) (now : Int) (r : QueryResult) (v : Int)
    (hkey : key = "text" ∨ key = "value" ∨ key = "type")
    (hmeta : ∀ e ∈ r.elements, metaLookup e.meta key = none) :
    (QueryResult.removeAttr [key] now r v).1.elements = r.elements
    ∧ (QueryResult.removeAttr [key] now r v).1.mutationLog
        = r.mutationLog ++
          (r.elements.filter (fun e =>
            !(jsStrictEq (QueryResult.getEntityAttr e key) JsValue.undefined))).map
            (fun e => { entityId := e.id, pageIndex := e.pageIndex,
                        field := key,
                        oldValue := QueryResult.getEntityAttr e key,
                        newValue := JsValue.undefined, timestamp := now })
    ∧ ((∃ e ∈ r.elements,
          jsStrictEq (QueryResult.getEntityAttr e key) JsValue.undefined = false) →
        (QueryResult.removeAttr [key] now r v).2 = v + 1)
    ∧ QueryResult.changes (QueryResult.removeAttr [key] now r v).1
        = (QueryResult.removeAttr [key] now r v).1.mutationLog := by
  have hfst : ∀ e ∈ r.elements, (removeAttrEntity [key] now e).1 = e := by
    intro e he
    rw [removeAttrEntity_single key now e (hmeta e he)]
    by_cases h : jsStrictEq (QueryResult.getEntityAttr e key) JsValue.undefined
    · rw [if_pos h]
    · rw [if_neg h]
  have hsnd : ∀ e ∈ r.elements, (removeAttrEntity [key] now e).2
      = if jsStrictEq (QueryResult.getEntityAttr e key) JsValue.undefined
        then []
        else [{ entityId := e.id, pageIndex := e.pageIndex,
                field := key,
                oldValue := QueryResult.getEntityAttr e key,
                newValue := JsValue.undefined, timestamp := now }] := by
    intro e he
    rw [removeAttrEntity_single key now e (hmeta e he)]
    by_cases h : jsStrictEq (QueryResult.getEntityAttr e key) JsValue.undefined
    · rw [if_pos h, if_pos h]
    · rw [if_neg h, if_neg h]
  have hlog : (QueryResult.removeAttr [key] now r v).1.mutationLog
      = r.mutationLog ++
        (r.elements.filter (fun e =>
          !(jsStrictEq (QueryResult.getEntityAttr e key) JsValue.undefined))).map
          (fun e => { entityId := e.id, pageIndex := e.pageIndex,
                      field := key,
                      oldValue := QueryResult.getEntityAttr e key,
                      newValue := JsValue.undefined, timestamp := now }) := by
    show r.mutationLog
        ++ (r.elements.map (removeAttrEntity [key] now)).flatMap (fun p => p.2) = _
    rw [List.flatMap_map]
    congr 1
    rw [List.flatMap_congr hsnd]
    exact flatMap_if_singleton
      (fun e => jsStrictEq (QueryResult.getEntityAttr e key) JsValue.undefined)
      _ r.elements
  refine ⟨?_, hlog, ?_, rfl⟩
  · show (r.elements.map (removeAttrEntity [key] now)).map (fun p => p.1)
      = r.elements
    rw [List.map_map]
    calc r.elements.map (fun e => (removeAttrEntity [key] now e).1)
        = r.elements.map id := List.map_congr_left hfst
      _ = r.elements := List.map_id r.elements
  · intro hex
    rcases hex with ⟨e, he, hfe⟩
    have hchange : ({ entityId := e.id, pageIndex := e.pageIndex,
                      field := key,
                      oldValue := QueryResult.getEntityAttr e key,
                      newValue := JsValue.undefined,
                      timestamp := now } : EntityChange)
        ∈ (QueryResult.removeAttr [key] now r v).1.mutationLog := by
      rw [hlog, List.mem_append]
      right
      rw [List.mem_map]
      exact ⟨e, List.mem_filter.mpr ⟨he, by rw [hfe]; rfl⟩, rfl⟩
    have hpos : 0 < (QueryResult.removeAttr [key] now r v).1.mutationLog.length :=
      List.length_pos.mpr (List.ne_nil_of_mem hchange)
    show (if 0 < (QueryResult.removeAttr [key] now r v).1.mutationLog.length
        then v + 1 else v) = v + 1
    rw [if_pos hpos]

/-- Witness for C9: removing text from a single-entity result logs one
change and bumps the version while the entity keeps its text. -/
theorem claim_C9_witness :
    (QueryResult.removeAttr ["text"] 7 ⟨[eC1], []⟩ 1).1.elements = [eC1]
    ∧ (QueryResult.removeAttr ["text"] 7 ⟨[eC1], []⟩ 1).2 = 1 + 1 := by
  have h := claim_C9 "text" 7 ⟨[eC1], []⟩ 1 (Or.inl rfl)
    (by intro e he
        have he2 : e = eC1 := by simpa using he
        subst he2
        decide)
  exact ⟨h.1, h.2.2.1 ⟨eC1, by decide, by decide⟩⟩
